import Mathlib

/-!
# Reflog panel: ledger refresh, undo planner and guarded reset

A shallow embedding of `pkg/gui/reflog_panel.go`.

* `gui.State` is the record `GuiState`; every function of the file is a
  function on a `World`, the state together with the chronological trace
  of the calls made to collaborators that live outside the file.
* A Go `error` is modelled by its message (`GoError`, `none` for `nil`); a
  run-time panic (slice bounds, index out of range, nil dereference) is the
  `panicked` constructor of `Outcome`.
* Go `int` is 64 bits wide and its arithmetic wraps.  Integers are `Int`, and
  the one operation that can leave the range of `int`, the `+=` of line 60 on
  the cursor, is wrapped by `wrapInt64`.  The other integers are lengths of
  slices and indices below them, and differences and successors of these,
  which stay below `2 ^ 63`.
* Collaborators that act on the repository (`handleCheckoutRef`, `resetToRef`,
  `refreshSidePanels`) may run refresh cycles of their own, so they are
  arbitrary state transformers supplied by `Env`.  Collaborators that only
  draw (`createErrorPanel`, `createConfirmationPanel`, views, tasks) and the
  methods of `gui.GitCommand` are recorded in the trace and return the result
  that `Env` gives them.
-/

namespace Gui

/-- A Go `error`, by its message; `none` is `nil`. -/
abbrev GoError := Option String

/-- How a call of a Go function ends: it returns a value or it panics. -/
inductive Outcome (α : Type) where
  | returned (value : α)
  | panicked (reason : String)
deriving DecidableEq, Repr

/-- The two fields of `commands.Commit` that the file reads. -/
structure Commit where
  Sha : String
  Name : String
deriving DecidableEq, Repr

/-- The field of `commands.File` that the file reads, and the file name. -/
structure File where
  Name : String
  Tracked : Bool
deriving DecidableEq, Repr

/-- The views the file refers to: `getCommitsView()`, `getBranchesView()`,
`getMainView()`, or any other view handed to a handler. -/
inductive View where
  | commits
  | branches
  | main
  | other (name : String)
deriving DecidableEq, Repr

/-- The function literals handed to `createConfirmationPanel`, with the
variables they capture: line 96 (`handleCheckoutRef(commit.Sha)`) and
line 182 (stash, reset, pop for `commitSha`). -/
inductive Closure where
  | checkoutCommit (sha : String)
  | autoStash (commitSha : String)
deriving DecidableEq, Repr

/-- The calls to collaborators outside the file, with their arguments. -/
inductive Call where
  | createErrorPanel (message : String)
  | createConfirmationPanel (currentView : View) (returnFocusOnClose : Bool)
      (title prompt : String) (handleConfirm : Closure) (handleClose : Option Closure)
  | handleCheckoutRef (ref : String)
  | resetToRef (ref strength : String)
  | StashSave (message : String)
  | StashDo (index : Int) (method : String)
  | refreshSidePanels
  | createResetMenu (ref : String)
  | SetCurrentView (view : View)
  | newStringTask (viewName str : String)
  | newPtyTask (viewName cmd : String)
  | FocusPoint (view : View) (cx cy : Int)
  | renderDisplayStrings (view : View) (commits : List Commit) (fullDescription : Bool)
  | LogError (message : String)
deriving DecidableEq, Repr

/-- One entry of the trace: the call and the value of `gui.State.Undoing`
at the moment the call was made. -/
structure Event where
  call : Call
  undoing : Bool
deriving DecidableEq, Repr

/-- The part of `gui.State` and of the view state that the file reads or writes. -/
structure GuiState where
  ReflogCommits : List Commit
  UndoReflogIdx : Int
  Undoing : Bool
  Files : List File
  /-- The field `gui.State.Panels.ReflogCommits.SelectedLine`. -/
  SelectedLine : Int
  SplitMainPanel : Bool
  ScreenMode : Int
  /-- The field `gui.getCommitsView().Context`. -/
  commitsViewContext : String
  /-- The view returned by `gui.g.CurrentView()`. -/
  currentView : View
  /-- The field `gui.getMainView().Title`. -/
  mainViewTitle : String
deriving DecidableEq, Repr

/-- The state and the calls made so far, oldest first. -/
structure World where
  gui : GuiState
  trace : List Event
deriving DecidableEq, Repr

/-- The collaborators of the file and the constants it takes from elsewhere. -/
structure Env where
  /-- Result of `gui.GitCommand.GetReflogCommits()`. -/
  GetReflogCommits : Except String (List Commit)
  /-- Result of `gui.GitCommand.StashSave(message)`. -/
  StashSave : String → GoError
  /-- Result of `gui.GitCommand.StashDo(index, method)`. -/
  StashDo : Int → String → GoError
  /-- Result of `gui.GitCommand.ShowCmdStr(sha)`. -/
  ShowCmdStr : String → String
  /-- Result of `gui.OSCommand.ExecutableFromString`, as the command text. -/
  ExecutableFromString : String → String
  /-- Result of `gui.Tr.SLocalize(key)`. -/
  SLocalize : String → String
  handleCheckoutRef : String → GuiState → GoError × GuiState
  resetToRef : String → String → GuiState → GoError × GuiState
  refreshSidePanels : GuiState → GoError × GuiState
  createErrorPanel : String → GoError
  createConfirmationPanel : String → String → GoError
  createResetMenu : String → GoError
  SetCurrentView : View → GoError
  newStringTask : String → String → GoError
  newPtyTask : String → String → GoError
  popupPanelFocused : Bool
  /-- The constant `SCREEN_NORMAL`. -/
  SCREEN_NORMAL : Int

/-! ## Writes to the state and calls to collaborators -/

/-- Append a call to the trace, stamped with the current `Undoing`. -/
def World.emit (w : World) (c : Call) : World :=
  { w with trace := w.trace ++ [⟨c, w.gui.Undoing⟩] }

/-- The assignment `gui.State.Undoing = b`. -/
def World.setUndoing (w : World) (b : Bool) : World :=
  { w with gui := { w.gui with Undoing := b } }

/-- The assignment `gui.State.UndoReflogIdx = n`. -/
def World.setUndoReflogIdx (w : World) (n : Int) : World :=
  { w with gui := { w.gui with UndoReflogIdx := n } }

/-- The assignment `gui.State.ReflogCommits = commits`. -/
def World.setReflogCommits (w : World) (commits : List Commit) : World :=
  { w with gui := { w.gui with ReflogCommits := commits } }

/-- The call `gui.createErrorPanel(g, message)`. -/
def createErrorPanel (env : Env) (message : String) (w : World) : GoError × World :=
  (env.createErrorPanel message, w.emit (.createErrorPanel message))

/-- The call `gui.createConfirmationPanel(g, view, focus, title, prompt, onConfirm, onClose)`:
the handlers are registered, none of them runs during the call. -/
def createConfirmationPanel (env : Env) (view : View) (returnFocusOnClose : Bool)
    (title prompt : String) (handleConfirm : Closure) (handleClose : Option Closure)
    (w : World) : GoError × World :=
  (env.createConfirmationPanel title prompt,
    w.emit (.createConfirmationPanel view returnFocusOnClose title prompt handleConfirm handleClose))

/-- The call `gui.handleCheckoutRef(ref)`. -/
def handleCheckoutRef (env : Env) (ref : String) (w : World) : GoError × World :=
  let w1 := w.emit (.handleCheckoutRef ref)
  let r := env.handleCheckoutRef ref w1.gui
  (r.1, { w1 with gui := r.2 })

/-- The call `gui.resetToRef(ref, strength)`. -/
def resetToRef (env : Env) (ref strength : String) (w : World) : GoError × World :=
  let w1 := w.emit (.resetToRef ref strength)
  let r := env.resetToRef ref strength w1.gui
  (r.1, { w1 with gui := r.2 })

/-- The call `gui.refreshSidePanels(g)`. -/
def refreshSidePanels (env : Env) (w : World) : GoError × World :=
  let w1 := w.emit .refreshSidePanels
  let r := env.refreshSidePanels w1.gui
  (r.1, { w1 with gui := r.2 })

/-- The call `gui.GitCommand.StashSave(message)`. -/
def StashSave (env : Env) (message : String) (w : World) : GoError × World :=
  (env.StashSave message, w.emit (.StashSave message))

/-- The call `gui.GitCommand.StashDo(index, method)`. -/
def StashDo (env : Env) (index : Int) (method : String) (w : World) : GoError × World :=
  (env.StashDo index method, w.emit (.StashDo index method))

/-- The call `gui.createResetMenu(ref)`. -/
def createResetMenu (env : Env) (ref : String) (w : World) : GoError × World :=
  (env.createResetMenu ref, w.emit (.createResetMenu ref))

/-! ## List panel functions (lines 13 to 112) -/

/-- Lines 13 to 20: `nil` when the selected line is `-1` or the list is
empty, otherwise `gui.State.ReflogCommits[selectedLine]`, which panics when
the index is out of range. -/
def getSelectedReflogCommit (w : World) : Outcome (Option Commit) :=
  let selectedLine := w.gui.SelectedLine
  if selectedLine = -1 ∨ w.gui.ReflogCommits.length = 0 then .returned none
  else if selectedLine < 0 then .panicked "index out of range"
  else
    match w.gui.ReflogCommits[selectedLine.toNat]? with
    | some c => .returned (some c)
    | none => .panicked "index out of range"

/-- Lines 22 to 49. -/
def handleReflogCommitSelect (env : Env) (v : View) (w : World) : Outcome GoError × World :=
  if env.popupPanelFocused then (.returned none, w)
  else
    let w1 := { w with gui := { w.gui with SplitMainPanel := false } }
    let w2 := w1.emit (.SetCurrentView v)
    match env.SetCurrentView v with
    | some err => (.returned (some err), w2)
    | none =>
      let w3 := { w2 with gui := { w2.gui with currentView := v } }
      let w4 := { w3 with gui := { w3.gui with mainViewTitle := "Reflog Entry" } }
      match getSelectedReflogCommit w4 with
      | .panicked reason => (.panicked reason, w4)
      | .returned none =>
        (.returned (env.newStringTask "main" "No reflog history"),
          w4.emit (.newStringTask "main" "No reflog history"))
      | .returned (some commit) =>
        let w5 := w4.emit (.FocusPoint v 0 w4.gui.SelectedLine)
        let cmd := env.ExecutableFromString (env.ShowCmdStr commit.Sha)
        let w6 := w5.emit (.newPtyTask "main" cmd)
        match env.newPtyTask "main" cmd with
        | some err => (.returned none, w6.emit (.LogError err))
        | none => (.returned none, w6)

/-- Modelled from the spec: `refreshSelectedLine`, which is not in the file.
The spec's ClampSelection: with no entries the selection becomes the
sentinel `-1`; otherwise it is clamped into `[0, total - 1]`, an index that
is still valid being kept. -/
def refreshSelectedLine (line : Int) (total : Nat) : Int :=
  if total = 0 then -1
  else if line < 0 then 0
  else if line > (total : Int) - 1 then (total : Int) - 1
  else line

/-- Lines 75 to 88. -/
def renderReflogCommitsWithSelection (env : Env) (w : World) : Outcome GoError × World :=
  let w1 := { w with gui := { w.gui with
    SelectedLine := refreshSelectedLine w.gui.SelectedLine w.gui.ReflogCommits.length } }
  let w2 := w1.emit
    (.renderDisplayStrings .commits w1.gui.ReflogCommits (w1.gui.ScreenMode != env.SCREEN_NORMAL))
  if w2.gui.currentView = .commits ∧ w2.gui.commitsViewContext = "reflog-commits" then
    match handleReflogCommitSelect env .commits w2 with
    | (.panicked reason, w3) => (.panicked reason, w3)
    | (.returned (some err), w3) => (.returned (some err), w3)
    | (.returned none, w3) => (.returned none, w3)
  else (.returned none, w2)

/-- The value of the integer `x` as a Go `int`: 64 bits, two's complement,
so that arithmetic wraps modulo `2 ^ 64` into `[-2 ^ 63, 2 ^ 63)`. -/
def wrapInt64 (x : Int) : Int := (x + 2 ^ 63) % 2 ^ 64 - 2 ^ 63

/-- Lines 51 to 73.  The `+=` of line 60 is an addition of Go `int`s and
wraps; `len(commits) - previousLength` is a difference of two slice lengths
and does not. -/
def refreshReflogCommits (env : Env) (w : World) : Outcome GoError × World :=
  let previousLength := w.gui.ReflogCommits.length
  match env.GetReflogCommits with
  | .error err =>
    let r := createErrorPanel env err w
    (.returned r.1, r.2)
  | .ok commits =>
    let w1 :=
      if commits.length > previousLength then
        if w.gui.Undoing then
          w.setUndoReflogIdx
            (wrapInt64 (w.gui.UndoReflogIdx + ((commits.length : Int) - (previousLength : Int))))
        else
          w.setUndoReflogIdx 0
      else w
    let w2 := w1.setReflogCommits commits
    if w2.gui.commitsViewContext = "reflog-commits" then
      renderReflogCommitsWithSelection env w2
    else (.returned none, w2)

/-- Lines 90 to 106. -/
def handleCheckoutReflogCommit (env : Env) (w : World) : Outcome GoError × World :=
  match getSelectedReflogCommit w with
  | .panicked reason => (.panicked reason, w)
  | .returned none => (.returned none, w)
  | .returned (some commit) =>
    match createConfirmationPanel env .commits true (env.SLocalize "checkoutCommit")
        (env.SLocalize "SureCheckoutThisCommit") (.checkoutCommit commit.Sha) none w with
    | (some err, w1) => (.returned (some err), w1)
    | (none, w1) => (.returned none, { w1 with gui := { w1.gui with SelectedLine := 0 } })

/-- Lines 108 to 112: `commit.Sha` dereferences the result of
`getSelectedReflogCommit` without a nil check. -/
def handleCreateReflogResetMenu (env : Env) (w : World) : Outcome GoError × World :=
  match getSelectedReflogCommit w with
  | .panicked reason => (.panicked reason, w)
  | .returned none => (.panicked "nil pointer dereference", w)
  | .returned (some commit) =>
    let r := createResetMenu env commit.Sha w
    (.returned r.1, r.2)

/-! ## Undo (lines 114 to 204) -/

/-- The class `\s` of Go regular expressions: tab, line feed, form feed,
carriage return and space.  `[\S]` is its complement. -/
def isSpace (c : Char) : Bool :=
  c.toNat = 9 || c.toNat = 10 || c.toNat = 12 || c.toNat = 13 || c.toNat = 32

/-- The two regular expressions of `reflogActions`, compiled by
`regexp.MustCompile`. -/
inductive Regexp where
  | checkoutMovingFrom
  | commitOrRebaseStart
deriving DecidableEq, Repr

/-- The text of the expression, the `regexStr` of the source. -/
def Regexp.regexStr : Regexp → String
  | .checkoutMovingFrom => "^checkout: moving from ([\\S]+)"
  | .commitOrRebaseStart => "^commit|^rebase -i \\(start\\)"

/-- The method `FindStringSubmatch` for the two expressions: `nil` (the
empty list) when the text has no match, otherwise the matched text followed
by the text of each capture group.

* `^checkout: moving from ([\S]+)` is anchored at the start of the text: the
  literal must be a prefix and at least one non-space character must follow;
  the group is greedy, so it takes every non-space character up to the first
  space character or the end.
* `^commit|^rebase -i \(start\)` has two alternatives, both anchored at the
  start and neither anchored at the end: the text starts with `commit`, or
  else it starts with `rebase -i (start)`.  There is no group. -/
def Regexp.FindStringSubmatch : Regexp → String → List String
  | .checkoutMovingFrom, s =>
    let lit := "checkout: moving from ".toList
    if lit.isPrefixOf s.toList then
      let ref := (s.toList.drop lit.length).takeWhile (fun c => !isSpace c)
      if ref.isEmpty then [] else [String.mk (lit ++ ref), String.mk ref]
    else []
  | .commitOrRebaseStart, s =>
    if "commit".toList.isPrefixOf s.toList then ["commit"]
    else if "rebase -i (start)".toList.isPrefixOf s.toList then ["rebase -i (start)"]
    else []

/-- Lines 167 to 204, the function literal of lines 182 to 197: what runs
when the user confirms the autostash prompt. -/
def autoStashOnConfirm (env : Env) (commitSha : String) (w : World) : GoError × World :=
  match StashSave env (env.SLocalize "StashPrefix" ++ commitSha) w with
  | (some err, w1) => createErrorPanel env err w1
  | (none, w1) =>
    match resetToRef env commitSha "hard" w1 with
    | (some err, w2) => createErrorPanel env err w2
    | (none, w2) =>
      match StashDo env 0 "pop" w2 with
      | (some err, w3) =>
        match refreshSidePanels env w3 with
        | (some err2, w4) => (some err2, w4)
        | (none, w4) => createErrorPanel env err w4
      | (none, w3) => refreshSidePanels env w3

/-- Run a registered handler: line 97 for `checkoutCommit`, lines 183 to 196
for `autoStash`. -/
def Closure.run (env : Env) : Closure → World → GoError × World
  | .checkoutCommit sha, w => handleCheckoutRef env sha w
  | .autoStash commitSha, w => autoStashOnConfirm env commitSha w

/-- Lines 167 to 204.  The deferred `gui.State.Undoing = false` runs after
the returned value has been computed. -/
def handleHardResetWithAutoStash (env : Env) (commitSha : String) (w : World) :
    GoError × World :=
  let dirtyWorkingTree := w.gui.Files.any (fun file => file.Tracked)
  let w1 := w.setUndoing true
  let r :=
    if dirtyWorkingTree then
      createConfirmationPanel env .branches true (env.SLocalize "AutoStashTitle")
        (env.SLocalize "AutoStashPrompt") (.autoStash commitSha) none w1
    else
      match resetToRef env commitSha "hard" w1 with
      | (some err, w2) => createErrorPanel env err w2
      | (none, w2) => refreshSidePanels env w2
  (r.1, r.2.setUndoing false)

/-- The type `reflogAction` of lines 114 to 117; `action` returns the pair
`(done, err)`. -/
structure reflogAction where
  regexStr : Regexp
  action : Env → List String → String → String → World → (Bool × GoError) × World

/-- Lines 123 to 131, the action of the first rule. -/
def checkoutAction (env : Env) (mtch : List String) (_commitSha _prevCommitSha : String)
    (w : World) : (Bool × GoError) × World :=
  if mtch.length ≤ 1 then ((false, none), w)
  else
    let w1 := w.setUndoing true
    let r := handleCheckoutRef env (mtch.getD 1 "") w1
    ((true, r.1), r.2.setUndoing false)

/-- Lines 135 to 137, the action of the second rule. -/
def resetAction (env : Env) (_mtch : List String) (_commitSha prevCommitSha : String)
    (w : World) : (Bool × GoError) × World :=
  let r := handleHardResetWithAutoStash env prevCommitSha w
  ((true, r.1), r.2)

/-- Lines 120 to 139. -/
def reflogActions : List reflogAction :=
  [⟨.checkoutMovingFrom, checkoutAction⟩, ⟨.commitOrRebaseStart, resetAction⟩]

/-- Lines 148 to 151, with `i` the index of the loop of line 141, that is the
position in the slice `ReflogCommits[UndoReflogIdx:]`, while the list indexed
is all of `ReflogCommits`. -/
def prevCommitShaAt (commits : List Commit) (i : Nat) : String :=
  if (commits.length : Int) - 1 ≥ (i : Int) + 1 then
    match commits[i + 1]? with
    | some c => c.Sha
    | none => ""
  else ""

/-- Lines 142 to 160, the inner loop for one entry: `some err` when the
function returns `err` (lines 155 and 158), `none` when the loop runs out of
rules and the outer loop goes on. -/
def tryActions (env : Env) (i : Nat) (reflogCommit : Commit) :
    List reflogAction → World → Option GoError × World
  | [], w => (none, w)
  | action :: rest, w =>
    let mtch := action.regexStr.FindStringSubmatch reflogCommit.Name
    if mtch.length = 0 then tryActions env i reflogCommit rest w
    else
      let prevCommitSha := prevCommitShaAt w.gui.ReflogCommits i
      let r := action.action env mtch reflogCommit.Sha prevCommitSha w
      match r.1.2 with
      | some err => (some (some err), r.2)
      | none => if r.1.1 then (some none, r.2) else tryActions env i reflogCommit rest r.2

/-- Lines 141 to 163, the outer loop over the slice taken at line 141. -/
def scanReflog (env : Env) : List Commit → Nat → World → GoError × World
  | [], _, w => (none, w)
  | reflogCommit :: rest, i, w =>
    match tryActions env i reflogCommit reflogActions w with
    | (some ret, w1) => (ret, w1)
    | (none, w1) => scanReflog env rest (i + 1) w1

/-- Lines 119 to 164.  The slice expression of line 141 panics when the cursor
is negative or greater than the length. -/
def reflogUndo (env : Env) (w : World) : Outcome GoError × World :=
  let idx := w.gui.UndoReflogIdx
  if idx < 0 ∨ idx > (w.gui.ReflogCommits.length : Int) then
    (.panicked "slice bounds out of range", w)
  else
    let r := scanReflog env (w.gui.ReflogCommits.drop idx.toNat) 0 w
    (.returned r.1, r.2)

/-! ## Concrete collaborators for evaluation -/

/-- Collaborators that all succeed and leave the state alone; the fetch
returns `commits`. -/
def quietEnv (commits : List Commit) : Env where
  GetReflogCommits := .ok commits
  StashSave := fun _ => none
  StashDo := fun _ _ => none
  ShowCmdStr := fun sha => "git show " ++ sha
  ExecutableFromString := fun s => s
  SLocalize := fun key => key
  handleCheckoutRef := fun _ g => (none, g)
  resetToRef := fun _ _ g => (none, g)
  refreshSidePanels := fun g => (none, g)
  createErrorPanel := fun _ => none
  createConfirmationPanel := fun _ _ => none
  createResetMenu := fun _ => none
  SetCurrentView := fun _ => none
  newStringTask := fun _ _ => none
  newPtyTask := fun _ _ => none
  popupPanelFocused := false
  SCREEN_NORMAL := 0

/-- As `quietEnv`, but the stash save fails. -/
def stashSaveFailsEnv : Env :=
  { quietEnv [] with StashSave := fun _ => some "cannot save" }

/-- As `quietEnv`, but the reset fails. -/
def resetFailsEnv : Env :=
  { quietEnv [] with resetToRef := fun _ _ g => (some "cannot reset", g) }

/-- As `quietEnv`, but the stash pop fails. -/
def stashPopFailsEnv : Env :=
  { quietEnv [] with StashDo := fun _ _ => some "conflict" }

/-- As `quietEnv`, but the refresh of the side panels runs the refresh of
the reflog, whose fetch returns `commits`. -/
def refreshingEnv (commits : List Commit) : Env :=
  { quietEnv commits with
    refreshSidePanels := fun g => (none, (refreshReflogCommits (quietEnv commits) ⟨g, []⟩).2.gui) }

/-- A state with the given ledger and status list, and the files view in front. -/
def mkGui (commits : List Commit) (cursor : Int) (undoing : Bool) (files : List File) :
    GuiState where
  ReflogCommits := commits
  UndoReflogIdx := cursor
  Undoing := undoing
  Files := files
  SelectedLine := 0
  SplitMainPanel := false
  ScreenMode := 0
  commitsViewContext := "branch-commits"
  currentView := .other "files"
  mainViewTitle := ""

/-- The initial state: no entries, cursor 0, no undo in flight. -/
def initialGui : GuiState := mkGui [] 0 false []

/-! ## Specification-side definitions -/

/-- The invariant of the data model: `0 <= cursor <= len(entries)`. -/
def ledgerInvariant (g : GuiState) : Prop :=
  0 ≤ g.UndoReflogIdx ∧ g.UndoReflogIdx ≤ (g.ReflogCommits.length : Int)

instance (g : GuiState) : Decidable (ledgerInvariant g) := by
  unfold ledgerInvariant; infer_instance

/-- One refresh cycle of a run: the value of `Undoing` when the refresh
happens, the sequence the fetch returns, and the other collaborators. -/
structure RefreshStep where
  undoing : Bool
  commits : List Commit
  env : Env
  /-- The fetched sequence is a Go slice: its length is an `int`. -/
  lengthFits : commits.length < 2 ^ 63

/-- A successful refresh: `Undoing` has the value of the step and the fetch
returns the sequence of the step. -/
def RefreshStep.apply (st : RefreshStep) (w : World) : World :=
  (refreshReflogCommits { st.env with GetReflogCommits := .ok st.commits }
    (w.setUndoing st.undoing)).2

/-- A sequence of successful refreshes, first step first. -/
def refreshRun : List RefreshStep → World → World
  | [], w => w
  | st :: rest, w => refreshRun rest (st.apply w)

/-- No refresh of the run fetches fewer entries than the cursor it meets. -/
def neverBelowCursor : List RefreshStep → World → Prop
  | [], _ => True
  | st :: rest, w =>
    w.gui.UndoReflogIdx ≤ (st.commits.length : Int) ∧ neverBelowCursor rest (st.apply w)

/-- The calls of a trace, without the `Undoing` stamps. -/
def calls (trace : List Event) : List Call := trace.map Event.call

/-- Whether a call is a `resetToRef`. -/
def Call.isResetToRef : Call → Bool
  | .resetToRef _ _ => true
  | _ => false

/-- The first rule, in the order of the list, whose expression matches
`name`, with the match. -/
def firstMatchingRule (name : String) : List reflogAction → Option (reflogAction × List String)
  | [] => none
  | a :: rest =>
    if (a.regexStr.FindStringSubmatch name).length = 0 then firstMatchingRule name rest
    else some (a, a.regexStr.FindStringSubmatch name)

/-- No rule of `reflogActions` matches `name`. -/
def noRuleMatches (name : String) : Prop :=
  ∀ a ∈ reflogActions, a.regexStr.FindStringSubmatch name = []

/-- Whether the text `s` begins with the text `p`. -/
def beginsWith (p s : String) : Bool := p.toList.isPrefixOf s.toList

/-- The literal of the checkout expression, as characters. -/
def checkoutLiteral : List Char := "checkout: moving from ".toList

/-- The collaborators that act on the repository do not write `Undoing`
themselves. -/
def EnvKeepsUndoing (env : Env) : Prop :=
  (∀ ref g, (env.handleCheckoutRef ref g).2.Undoing = g.Undoing) ∧
  (∀ ref strength g, (env.resetToRef ref strength g).2.Undoing = g.Undoing) ∧
  (∀ g, (env.refreshSidePanels g).2.Undoing = g.Undoing)

/-- The outer loop of lines 141 to 163 with the rules given as a parameter,
to compare orders of the rules. -/
def scanReflogWith (env : Env) (actions : List reflogAction) :
    List Commit → Nat → World → GoError × World
  | [], _, w => (none, w)
  | reflogCommit :: rest, i, w =>
    match tryActions env i reflogCommit actions w with
    | (some ret, w1) => (ret, w1)
    | (none, w1) => scanReflogWith env actions rest (i + 1) w1

/-- The function `reflogUndo` with the rules given as a parameter. -/
def reflogUndoWith (env : Env) (actions : List reflogAction) (w : World) :
    Outcome GoError × World :=
  let idx := w.gui.UndoReflogIdx
  if idx < 0 ∨ idx > (w.gui.ReflogCommits.length : Int) then
    (.panicked "slice bounds out of range", w)
  else
    let r := scanReflogWith env actions (w.gui.ReflogCommits.drop idx.toNat) 0 w
    (.returned r.1, r.2)

end Gui

/-! # Theorems -/

namespace Gui

/-! ## Frame lemmas for the drawing code -/

theorem handleReflogCommitSelect_ledger (env : Env) (v : View) (w : World) :
    (handleReflogCommitSelect env v w).2.gui.ReflogCommits = w.gui.ReflogCommits ∧
    (handleReflogCommitSelect env v w).2.gui.UndoReflogIdx = w.gui.UndoReflogIdx ∧
    (handleReflogCommitSelect env v w).2.gui.Undoing = w.gui.Undoing := by
  unfold handleReflogCommitSelect
  by_cases hp : env.popupPanelFocused = true
  · simp [hp]
  · simp only [hp]
    cases hs : env.SetCurrentView v with
    | some err => simp [World.emit]
    | none =>
      simp only [Bool.false_eq_true, if_false]
      split
      · simp [World.emit]
      · simp [World.emit]
      · cases hn : env.newPtyTask "main" (env.ExecutableFromString (env.ShowCmdStr _)) <;>
          simp [World.emit]

theorem renderReflogCommitsWithSelection_ledger (env : Env) (w : World) :
    (renderReflogCommitsWithSelection env w).2.gui.ReflogCommits = w.gui.ReflogCommits ∧
    (renderReflogCommitsWithSelection env w).2.gui.UndoReflogIdx = w.gui.UndoReflogIdx ∧
    (renderReflogCommitsWithSelection env w).2.gui.Undoing = w.gui.Undoing := by
  unfold renderReflogCommitsWithSelection
  simp only
  split
  · have h := handleReflogCommitSelect_ledger env .commits
      (World.emit { w with gui := { w.gui with
        SelectedLine := refreshSelectedLine w.gui.SelectedLine w.gui.ReflogCommits.length } }
        (.renderDisplayStrings .commits w.gui.ReflogCommits (w.gui.ScreenMode != env.SCREEN_NORMAL)))
    split <;> rename_i heq <;> rw [heq] at h <;> simpa [World.emit] using h
  · simp [World.emit]

/-! ## The ledger store: `refreshReflogCommits` -/

/-- The last step of a refresh, the optional re-render, keeps the ledger. -/
theorem refresh_render_ledger (env : Env) (w : World) :
    (if w.gui.commitsViewContext = "reflog-commits" then
        renderReflogCommitsWithSelection env w
      else (Outcome.returned none, w)).2.gui.ReflogCommits = w.gui.ReflogCommits ∧
    (if w.gui.commitsViewContext = "reflog-commits" then
        renderReflogCommitsWithSelection env w
      else (Outcome.returned none, w)).2.gui.UndoReflogIdx = w.gui.UndoReflogIdx ∧
    (if w.gui.commitsViewContext = "reflog-commits" then
        renderReflogCommitsWithSelection env w
      else (Outcome.returned none, w)).2.gui.Undoing = w.gui.Undoing := by
  split_ifs
  · exact renderReflogCommitsWithSelection_ledger env w
  · exact ⟨rfl, rfl, rfl⟩

/-- What a successful refresh does to the ledger, in one statement. -/
theorem refreshReflogCommits_ok_ledger (env : Env) (w : World) (commits : List Commit)
    (hfetch : env.GetReflogCommits = .ok commits) :
    (refreshReflogCommits env w).2.gui.ReflogCommits = commits ∧
    (refreshReflogCommits env w).2.gui.Undoing = w.gui.Undoing ∧
    (refreshReflogCommits env w).2.gui.UndoReflogIdx =
      (if commits.length > w.gui.ReflogCommits.length then
        (if w.gui.Undoing then
          wrapInt64 (w.gui.UndoReflogIdx + ((commits.length : Int) - (w.gui.ReflogCommits.length : Int)))
        else 0)
      else w.gui.UndoReflogIdx) := by
  have hunf : refreshReflogCommits env w =
      (if (World.setReflogCommits
            (if commits.length > w.gui.ReflogCommits.length then
              if w.gui.Undoing = true then
                w.setUndoReflogIdx
                  (wrapInt64 (w.gui.UndoReflogIdx + ((commits.length : Int) - (w.gui.ReflogCommits.length : Int))))
              else w.setUndoReflogIdx 0
            else w) commits).gui.commitsViewContext = "reflog-commits" then
        renderReflogCommitsWithSelection env
          (World.setReflogCommits
            (if commits.length > w.gui.ReflogCommits.length then
              if w.gui.Undoing = true then
                w.setUndoReflogIdx
                  (wrapInt64 (w.gui.UndoReflogIdx + ((commits.length : Int) - (w.gui.ReflogCommits.length : Int))))
              else w.setUndoReflogIdx 0
            else w) commits)
      else (Outcome.returned none,
          World.setReflogCommits
            (if commits.length > w.gui.ReflogCommits.length then
              if w.gui.Undoing = true then
                w.setUndoReflogIdx
                  (wrapInt64 (w.gui.UndoReflogIdx + ((commits.length : Int) - (w.gui.ReflogCommits.length : Int))))
              else w.setUndoReflogIdx 0
            else w) commits)) := by
    unfold refreshReflogCommits
    simp only [hfetch]
  obtain ⟨h1, h2, h3⟩ := refresh_render_ledger env
    (World.setReflogCommits
      (if commits.length > w.gui.ReflogCommits.length then
        if w.gui.Undoing = true then
          w.setUndoReflogIdx
            (wrapInt64 (w.gui.UndoReflogIdx + ((commits.length : Int) - (w.gui.ReflogCommits.length : Int))))
        else w.setUndoReflogIdx 0
      else w) commits)
  rw [hunf, h1, h2, h3]
  refine ⟨rfl, ?_, ?_⟩
  · split_ifs <;> rfl
  · split_ifs <;> rfl

/-- A value inside the range of `int` is its own value as an `int`. -/
theorem wrapInt64_of_fits (x : Int) (hlo : -(2 : Int) ^ 63 ≤ x) (hhi : x < (2 : Int) ^ 63) :
    wrapInt64 x = x := by
  unfold wrapInt64
  norm_num at hlo hhi ⊢
  omega

/-- C1, as the code has it: from a ledger of N entries and cursor c, a
refresh whose fetch succeeds with N + k entries, k > 0, leaves the entries
equal to the fetched sequence.  With `Undoing` false the cursor becomes 0.
With `Undoing` true the cursor becomes c + k as a 64-bit Go `int`: it is
c + k whenever c + k fits (c an `int` and c + k below `2 ^ 63`), and the
sum wrapped modulo `2 ^ 64` in general. -/
theorem refreshReflogCommits_growth (env : Env) (w : World) (commits : List Commit) (k : Nat)
    (hfetch : env.GetReflogCommits = .ok commits)
    (hk : 0 < k)
    (hlen : commits.length = w.gui.ReflogCommits.length + k) :
    (refreshReflogCommits env w).2.gui.ReflogCommits = commits ∧
    (w.gui.Undoing = true →
      (refreshReflogCommits env w).2.gui.UndoReflogIdx =
        wrapInt64 (w.gui.UndoReflogIdx + (k : Int))) ∧
    (w.gui.Undoing = true → -(2 : Int) ^ 63 ≤ w.gui.UndoReflogIdx →
      w.gui.UndoReflogIdx + (k : Int) < (2 : Int) ^ 63 →
      (refreshReflogCommits env w).2.gui.UndoReflogIdx = w.gui.UndoReflogIdx + (k : Int)) ∧
    (w.gui.Undoing = false → (refreshReflogCommits env w).2.gui.UndoReflogIdx = 0) := by
  obtain ⟨h1, _, h3⟩ := refreshReflogCommits_ok_ledger env w commits hfetch
  have hgt : commits.length > w.gui.ReflogCommits.length := by omega
  have hdiff : w.gui.UndoReflogIdx +
      ((commits.length : Int) - (w.gui.ReflogCommits.length : Int)) =
      w.gui.UndoReflogIdx + (k : Int) := by
    rw [hlen]
    push_cast
    ring
  have hwrap : w.gui.Undoing = true →
      (refreshReflogCommits env w).2.gui.UndoReflogIdx =
        wrapInt64 (w.gui.UndoReflogIdx + (k : Int)) := by
    intro hu
    rw [h3, if_pos hgt, if_pos hu, hdiff]
  refine ⟨h1, hwrap, ?_, ?_⟩
  · intro hu hlo hhi
    rw [hwrap hu]
    apply wrapInt64_of_fits
    · omega
    · exact hhi
  · intro hu
    rw [h3, if_pos hgt]
    simp [hu]

/-- C1 as amended, at a ledger of two entries with cursor 1 and an undo in
flight: a fetch of three entries moves the cursor to 2. -/
theorem refreshReflogCommits_growth_witness :
    (refreshReflogCommits (quietEnv [⟨"n", "checkout: moving from a to b"⟩, ⟨"s0", "x"⟩, ⟨"s1", "y"⟩])
        ⟨mkGui [⟨"s0", "x"⟩, ⟨"s1", "y"⟩] 1 true [], []⟩).2.gui.ReflogCommits
      = [⟨"n", "checkout: moving from a to b"⟩, ⟨"s0", "x"⟩, ⟨"s1", "y"⟩] ∧
    (refreshReflogCommits (quietEnv [⟨"n", "checkout: moving from a to b"⟩, ⟨"s0", "x"⟩, ⟨"s1", "y"⟩])
        ⟨mkGui [⟨"s0", "x"⟩, ⟨"s1", "y"⟩] 1 true [], []⟩).2.gui.UndoReflogIdx = 2 := by
  have h := refreshReflogCommits_growth
    (quietEnv [⟨"n", "checkout: moving from a to b"⟩, ⟨"s0", "x"⟩, ⟨"s1", "y"⟩])
    ⟨mkGui [⟨"s0", "x"⟩, ⟨"s1", "y"⟩] 1 true [], []⟩
    [⟨"n", "checkout: moving from a to b"⟩, ⟨"s0", "x"⟩, ⟨"s1", "y"⟩] 1 rfl (by decide) rfl
  exact ⟨h.1, h.2.2.1 rfl (by decide) (by decide)⟩

/-- C1 fails as stated: from a ledger of no entry whose cursor is the
largest `int`, `2 ^ 63 - 1`, with an undo in flight, a fetch of one entry
(N = 0, k = 1) leaves the cursor at `-2 ^ 63`, which is not c + k. -/
theorem refreshReflogCommits_growth_wraps :
    (refreshReflogCommits (quietEnv [⟨"s0", "commit: a"⟩])
        ⟨mkGui [] 9223372036854775807 true [], []⟩).2.gui.UndoReflogIdx =
      -9223372036854775808 ∧
    (refreshReflogCommits (quietEnv [⟨"s0", "commit: a"⟩])
        ⟨mkGui [] 9223372036854775807 true [], []⟩).2.gui.UndoReflogIdx ≠
      9223372036854775807 + 1 := by
  decide

/-- C10: from a ledger of N entries and cursor c, a refresh whose fetch
succeeds with at most N entries leaves the cursor equal to c, whatever the
value of `Undoing`. -/
theorem refreshReflogCommits_no_growth (env : Env) (w : World) (commits : List Commit)
    (hfetch : env.GetReflogCommits = .ok commits)
    (hlen : commits.length ≤ w.gui.ReflogCommits.length) :
    (refreshReflogCommits env w).2.gui.UndoReflogIdx = w.gui.UndoReflogIdx := by
  obtain ⟨_, _, h3⟩ := refreshReflogCommits_ok_ledger env w commits hfetch
  rw [h3, if_neg (by omega)]

/-- C10, at a ledger of two entries with cursor 1 and an undo in flight: a
fetch of one entry leaves the cursor at 1. -/
theorem refreshReflogCommits_no_growth_witness :
    (refreshReflogCommits (quietEnv [⟨"s1", "y"⟩])
        ⟨mkGui [⟨"s0", "x"⟩, ⟨"s1", "y"⟩] 1 true [], []⟩).2.gui.UndoReflogIdx = 1 :=
  refreshReflogCommits_no_growth (quietEnv [⟨"s1", "y"⟩])
    ⟨mkGui [⟨"s0", "x"⟩, ⟨"s1", "y"⟩] 1 true [], []⟩ [⟨"s1", "y"⟩] rfl (by decide)

/-- One successful refresh keeps the invariant when the fetched sequence is
not shorter than the cursor: under the invariant the sum of line 60 is at most
the new length, which is the length of a slice, so it does not wrap. -/
theorem RefreshStep.apply_invariant (st : RefreshStep) (w : World)
    (hinv : ledgerInvariant w.gui)
    (hlen : w.gui.UndoReflogIdx ≤ (st.commits.length : Int)) :
    ledgerInvariant (st.apply w).gui := by
  obtain ⟨h1, _, h3⟩ := refreshReflogCommits_ok_ledger
    { st.env with GetReflogCommits := .ok st.commits } (w.setUndoing st.undoing) st.commits rfl
  obtain ⟨h0, hle⟩ := hinv
  have hfits : ((st.commits.length : Nat) : Int) < (2 : Int) ^ 63 := by
    exact_mod_cast st.lengthFits
  unfold ledgerInvariant RefreshStep.apply
  rw [h1, h3]
  simp only [World.setUndoing]
  split_ifs with hgrow hu
  · rw [wrapInt64_of_fits _ (by norm_num; omega) (by omega)]
    constructor <;> omega
  · constructor <;> omega
  · constructor <;> omega

theorem refreshRun_invariant (steps : List RefreshStep) :
    ∀ w : World, ledgerInvariant w.gui → neverBelowCursor steps w →
      ledgerInvariant (refreshRun steps w).gui := by
  induction steps with
  | nil => intro w hinv _; exact hinv
  | cons st rest ih =>
    intro w hinv hadm
    exact ih (st.apply w) (RefreshStep.apply_invariant st w hinv hadm.1) hadm.2

/-- C3, as the code has it: from the initial state (no entries, cursor 0,
whatever the flag, which every step sets anyway), after every sequence of successful refreshes, with
arbitrary values of `Undoing`, in which no fetched sequence has fewer
entries than the cursor at the time of that refresh,
`0 <= cursor <= len(entries)` holds. -/
theorem ledgerInvariant_of_refreshRun (steps : List RefreshStep) (w : World)
    (hentries : w.gui.ReflogCommits = [])
    (hcursor : w.gui.UndoReflogIdx = 0)
    (hadm : neverBelowCursor steps w) :
    0 ≤ (refreshRun steps w).gui.UndoReflogIdx ∧
    (refreshRun steps w).gui.UndoReflogIdx ≤ ((refreshRun steps w).gui.ReflogCommits.length : Int) := by
  have hinv : ledgerInvariant w.gui := by
    unfold ledgerInvariant
    rw [hentries, hcursor]
    simp
  exact refreshRun_invariant steps w hinv hadm

/-- C3 as amended, on a run that fetches three entries, then four during an
undo (cursor 1), then shrinks the ledger to two entries: the cursor 1 stays
within the ledger. -/
theorem ledgerInvariant_of_refreshRun_witness :
    0 ≤ (refreshRun [⟨false, [⟨"s2", "c"⟩, ⟨"s1", "b"⟩, ⟨"s0", "a"⟩], quietEnv [], by decide⟩,
          ⟨true, [⟨"s1", "reset: moving to s1"⟩, ⟨"s2", "c"⟩, ⟨"s1", "b"⟩, ⟨"s0", "a"⟩],
            quietEnv [], by decide⟩,
          ⟨false, [⟨"s1", "b"⟩, ⟨"s0", "a"⟩], quietEnv [], by decide⟩]
        ⟨initialGui, []⟩).gui.UndoReflogIdx ∧
    (refreshRun [⟨false, [⟨"s2", "c"⟩, ⟨"s1", "b"⟩, ⟨"s0", "a"⟩], quietEnv [], by decide⟩,
          ⟨true, [⟨"s1", "reset: moving to s1"⟩, ⟨"s2", "c"⟩, ⟨"s1", "b"⟩, ⟨"s0", "a"⟩],
            quietEnv [], by decide⟩,
          ⟨false, [⟨"s1", "b"⟩, ⟨"s0", "a"⟩], quietEnv [], by decide⟩]
        ⟨initialGui, []⟩).gui.UndoReflogIdx ≤ 2 :=
  ledgerInvariant_of_refreshRun
    [⟨false, [⟨"s2", "c"⟩, ⟨"s1", "b"⟩, ⟨"s0", "a"⟩], quietEnv [], by decide⟩,
      ⟨true, [⟨"s1", "reset: moving to s1"⟩, ⟨"s2", "c"⟩, ⟨"s1", "b"⟩, ⟨"s0", "a"⟩],
        quietEnv [], by decide⟩,
      ⟨false, [⟨"s1", "b"⟩, ⟨"s0", "a"⟩], quietEnv [], by decide⟩]
    ⟨initialGui, []⟩ rfl rfl
    ⟨by decide, by decide, by decide, trivial⟩

/-- C3 fails as stated: from the initial state, a refresh that fetches two
entries while `Undoing` is true moves the cursor to 2, and a second refresh
that fetches no entry leaves the cursor at 2, above the length 0. -/
theorem ledgerInvariant_broken_by_shrink :
    (refreshRun [⟨true, [⟨"s1", "b"⟩, ⟨"s0", "a"⟩], quietEnv [], by decide⟩,
          ⟨false, [], quietEnv [], by decide⟩]
        ⟨initialGui, []⟩).gui.UndoReflogIdx = 2 ∧
    (refreshRun [⟨true, [⟨"s1", "b"⟩, ⟨"s0", "a"⟩], quietEnv [], by decide⟩,
          ⟨false, [], quietEnv [], by decide⟩]
        ⟨initialGui, []⟩).gui.ReflogCommits = [] ∧
    ¬ ledgerInvariant
      (refreshRun [⟨true, [⟨"s1", "b"⟩, ⟨"s0", "a"⟩], quietEnv [], by decide⟩,
          ⟨false, [], quietEnv [], by decide⟩]
        ⟨initialGui, []⟩).gui := by
  decide

/-! ## The two expressions -/

theorem checkout_match_length (s : String) :
    (Regexp.FindStringSubmatch .checkoutMovingFrom s).length = 0 ∨
    (Regexp.FindStringSubmatch .checkoutMovingFrom s).length = 2 := by
  unfold Regexp.FindStringSubmatch
  simp only
  split_ifs <;> simp

theorem commit_match_length (s : String) :
    (Regexp.FindStringSubmatch .commitOrRebaseStart s).length = 0 ∨
    (Regexp.FindStringSubmatch .commitOrRebaseStart s).length = 1 := by
  unfold Regexp.FindStringSubmatch
  simp only
  split_ifs <;> simp

theorem checkout_nomatch_of_commit_match (s : String)
    (h : Regexp.FindStringSubmatch .commitOrRebaseStart s ≠ []) :
    Regexp.FindStringSubmatch .checkoutMovingFrom s = [] := by
  unfold Regexp.FindStringSubmatch at h ⊢
  simp only at h ⊢
  have hne : ("checkout: moving from ".toList).isPrefixOf s.toList = false := by
    rcases hs : s.toList with _ | ⟨a, _ | ⟨b, rest⟩⟩
    · rfl
    · simp [List.isPrefixOf]
    · rw [hs] at h
      by_contra hc
      simp [List.isPrefixOf] at hc h
      obtain ⟨rfl, rfl, _⟩ := hc
      simp at h
  simp only [hne, Bool.false_eq_true, if_false]

/-! ## The undo planner: `reflogUndo` -/

theorem checkoutAction_done (env : Env) (mtch : List String) (sha prev : String) (w : World)
    (h : mtch.length = 2) :
    (checkoutAction env mtch sha prev w).1.1 = true := by
  simp [checkoutAction, h]

theorem tryActions_first (env : Env) (i : Nat) (c : Commit) (w : World)
    (a : reflogAction) (m : List String)
    (h : firstMatchingRule c.Name reflogActions = some (a, m)) :
    tryActions env i c reflogActions w =
      (some (a.action env m c.Sha (prevCommitShaAt w.gui.ReflogCommits i) w).1.2,
        (a.action env m c.Sha (prevCommitShaAt w.gui.ReflogCommits i) w).2) := by
  simp only [reflogActions, firstMatchingRule] at h
  simp only [reflogActions, tryActions]
  by_cases h1 : (Regexp.FindStringSubmatch .checkoutMovingFrom c.Name).length = 0
  · rw [if_pos h1] at h ⊢
    by_cases h2 : (Regexp.FindStringSubmatch .commitOrRebaseStart c.Name).length = 0
    · rw [if_pos h2] at h
      cases h
    · rw [if_neg h2] at h ⊢
      injection h with h
      injection h with ha hm
      subst ha hm
      simp only [resetAction]
      split <;> simp_all
  · rw [if_neg h1] at h ⊢
    injection h with h
    injection h with ha hm
    subst ha hm
    have hlen : (Regexp.FindStringSubmatch .checkoutMovingFrom c.Name).length = 2 := by
      rcases checkout_match_length c.Name with h0 | h2
      · exact absurd h0 h1
      · exact h2
    have hdone := checkoutAction_done env _ c.Sha (prevCommitShaAt w.gui.ReflogCommits i) w hlen
    simp only
    split <;> simp_all

theorem firstMatchingRule_none_of_noRuleMatches (name : String) (h : noRuleMatches name) :
    ∀ acts : List reflogAction, (∀ a ∈ acts, a ∈ reflogActions) →
      firstMatchingRule name acts = none := by
  intro acts
  induction acts with
  | nil => intro _; rfl
  | cons a rest ih =>
    intro hsub
    have ha := h a (hsub a (List.mem_cons_self a rest))
    simp only [firstMatchingRule, ha, List.length_nil, if_true]
    exact ih (fun b hb => hsub b (List.mem_cons_of_mem a hb))

theorem tryActions_noMatch (env : Env) (i : Nat) (c : Commit) (h : noRuleMatches c.Name) :
    ∀ (acts : List reflogAction) (w : World), (∀ a ∈ acts, a ∈ reflogActions) →
      tryActions env i c acts w = (none, w) := by
  intro acts
  induction acts with
  | nil => intro w _; rfl
  | cons a rest ih =>
    intro w hsub
    have ha := h a (hsub a (List.mem_cons_self a rest))
    simp only [tryActions, ha, List.length_nil, if_true]
    exact ih w (fun b hb => hsub b (List.mem_cons_of_mem a hb))

theorem scanReflog_skip (env : Env) (rest : List Commit) :
    ∀ (pre : List Commit) (i : Nat) (w : World), (∀ x ∈ pre, noRuleMatches x.Name) →
      scanReflog env (pre ++ rest) i w = scanReflog env rest (i + pre.length) w := by
  intro pre
  induction pre with
  | nil => intro i w _; simp
  | cons x xs ih =>
    intro i w h
    have hx := tryActions_noMatch env i x (h x (List.mem_cons_self x xs)) reflogActions w
      (fun a ha => ha)
    have hstep : scanReflog env (x :: xs ++ rest) i w = scanReflog env (xs ++ rest) (i + 1) w := by
      show scanReflog env (x :: (xs ++ rest)) i w = _
      simp only [scanReflog, hx]
    rw [hstep, ih (i + 1) w (fun y hy => h y (List.mem_cons_of_mem x hy))]
    simp only [List.length_cons]
    congr 1
    omega

/-- The scan runs exactly one action: that of the first rule matching the
first entry, from the cursor on, that some rule matches.  The target handed
to it is computed from the position `pre.length` in the slice. -/
theorem reflogUndo_eq_first_action (env : Env) (w : World) (pre post : List Commit)
    (e : Commit) (a : reflogAction) (m : List String)
    (hc0 : 0 ≤ w.gui.UndoReflogIdx)
    (hdrop : w.gui.ReflogCommits.drop w.gui.UndoReflogIdx.toNat = pre ++ e :: post)
    (hpre : ∀ x ∈ pre, noRuleMatches x.Name)
    (hmatch : firstMatchingRule e.Name reflogActions = some (a, m)) :
    reflogUndo env w =
      (.returned (a.action env m e.Sha (prevCommitShaAt w.gui.ReflogCommits pre.length) w).1.2,
        (a.action env m e.Sha (prevCommitShaAt w.gui.ReflogCommits pre.length) w).2) := by
  have hle : ¬ (w.gui.UndoReflogIdx < 0 ∨
      w.gui.UndoReflogIdx > (w.gui.ReflogCommits.length : Int)) := by
    intro hbad
    rcases hbad with hneg | hgt
    · omega
    · have hnil : w.gui.ReflogCommits.drop w.gui.UndoReflogIdx.toNat = [] := by
        apply List.drop_of_length_le
        omega
      rw [hnil] at hdrop
      simp at hdrop
  unfold reflogUndo
  simp only [hle, if_false, hdrop]
  rw [scanReflog_skip env (e :: post) pre 0 w hpre]
  simp only [scanReflog, Nat.zero_add, tryActions_first env pre.length e w a m hmatch]


/-- C5: with the cursor inside the ledger, one call of `reflogUndo` runs
exactly one rule action, that of the first rule matching the entry of
smallest index from the cursor on that some rule matches (`e`, after the
entries `pre` that no rule matches), and returns what that action returns,
error or not; the entries `post` after it are not acted on. -/
theorem reflogUndo_runs_first_matching_action (env : Env) (w : World)
    (pre post : List Commit) (e : Commit) (a : reflogAction) (m : List String)
    (hc0 : 0 ≤ w.gui.UndoReflogIdx)
    (hdrop : w.gui.ReflogCommits.drop w.gui.UndoReflogIdx.toNat = pre ++ e :: post)
    (hpre : ∀ x ∈ pre, noRuleMatches x.Name)
    (hmatch : firstMatchingRule e.Name reflogActions = some (a, m)) :
    reflogUndo env w =
      (.returned (a.action env m e.Sha (prevCommitShaAt w.gui.ReflogCommits pre.length) w).1.2,
        (a.action env m e.Sha (prevCommitShaAt w.gui.ReflogCommits pre.length) w).2) :=
  reflogUndo_eq_first_action env w pre post e a m hc0 hdrop hpre hmatch

/-- C5, on the entries "checkout: moving from A", "commit: x" with cursor 0:
the only call is a checkout of "A", made during the undo; there is no reset. -/
theorem reflogUndo_runs_first_matching_action_witness :
    reflogUndo (quietEnv [])
        ⟨mkGui [⟨"e0", "checkout: moving from A"⟩, ⟨"e1", "commit: x"⟩] 0 false [], []⟩ =
      (.returned none,
        ⟨mkGui [⟨"e0", "checkout: moving from A"⟩, ⟨"e1", "commit: x"⟩] 0 false [],
          [⟨.handleCheckoutRef "A", true⟩]⟩) := by
  rw [reflogUndo_runs_first_matching_action (quietEnv [])
    ⟨mkGui [⟨"e0", "checkout: moving from A"⟩, ⟨"e1", "commit: x"⟩] 0 false [], []⟩
    [] [⟨"e1", "commit: x"⟩] ⟨"e0", "checkout: moving from A"⟩
    ⟨.checkoutMovingFrom, checkoutAction⟩ ["checkout: moving from A", "A"]
    (by decide) rfl (by simp) rfl]
  rfl

/-- The example of C5 for every outcome of the collaborators and every
status list: the calls made are exactly one checkout of "A". -/
theorem reflogUndo_checkout_then_commit (env : Env) (files : List File) (trace : List Event) :
    calls (reflogUndo env
        ⟨mkGui [⟨"e0", "checkout: moving from A"⟩, ⟨"e1", "commit: x"⟩] 0 false files, trace⟩).2.trace =
      calls trace ++ [.handleCheckoutRef "A"] := by
  rw [reflogUndo_eq_first_action env
    ⟨mkGui [⟨"e0", "checkout: moving from A"⟩, ⟨"e1", "commit: x"⟩] 0 false files, trace⟩
    [] [⟨"e1", "commit: x"⟩] ⟨"e0", "checkout: moving from A"⟩
    ⟨.checkoutMovingFrom, checkoutAction⟩ ["checkout: moving from A", "A"]
    (le_refl 0) rfl (by simp) rfl]
  simp [checkoutAction, handleCheckoutRef, World.emit, World.setUndoing, calls]

/-- The target computed at lines 148 to 151 is the entry after position `i`
of the whole ledger. -/
theorem prevCommitShaAt_eq (commits : List Commit) (i : Nat) (h : i + 1 < commits.length) :
    prevCommitShaAt commits i = (commits.get ⟨i + 1, h⟩).Sha := by
  unfold prevCommitShaAt
  have hg : (commits.length : Int) - 1 ≥ (i : Int) + 1 := by omega
  rw [if_pos hg, List.getElem?_eq_getElem h]
  rfl

theorem prevCommitShaAt_last (commits : List Commit) (i : Nat) (h : commits.length ≤ i + 1) :
    prevCommitShaAt commits i = "" := by
  unfold prevCommitShaAt
  have hg : ¬ ((commits.length : Int) - 1 ≥ (i : Int) + 1) := by omega
  rw [if_neg hg]

/-- C2, the code at cursor 1: the ledger holds the commits a, b, c and, at
index 0, the entry left by a first undo; the scan starts at index 1 and
reaches "commit: c" there.  The reset goes to sc, the id of that same entry
(index 1), and not to sb, the id of the entry that follows it (index 2). -/
theorem reflogUndo_target_at_cursor_one :
    (reflogUndo (quietEnv [])
        ⟨mkGui [⟨"sb", "reset: moving to sb"⟩, ⟨"sc", "commit: c"⟩, ⟨"sb", "commit: b"⟩,
          ⟨"sa", "commit (initial): a"⟩] 1 false [], []⟩).2.trace =
      [⟨.resetToRef "sc" "hard", true⟩, ⟨.refreshSidePanels, true⟩] := by
  decide

/-- C4 fails as stated: on the ledger "commit: x" alone, with cursor 0 and a
clean tree, `reflogUndo` returns no error and issues a hard reset to the
empty target. -/
theorem reflogUndo_oldest_commit_resets_to_empty :
    reflogUndo (quietEnv []) ⟨mkGui [⟨"s0", "commit: x"⟩] 0 false [], []⟩ =
      (.returned none,
        ⟨mkGui [⟨"s0", "commit: x"⟩] 0 false [],
          [⟨.resetToRef "" "hard", true⟩, ⟨.refreshSidePanels, true⟩]⟩) := by
  decide


/-! ## The guarded reset: `handleHardResetWithAutoStash` -/

theorem calls_append (t1 t2 : List Event) : calls (t1 ++ t2) = calls t1 ++ calls t2 := by
  simp [calls]

/-- On a dirty tree the function registers the prompt and does nothing else. -/
theorem handleHardResetWithAutoStash_dirty (env : Env) (commitSha : String) (w : World)
    (h : w.gui.Files.any (fun file => file.Tracked) = true) :
    handleHardResetWithAutoStash env commitSha w =
      (env.createConfirmationPanel (env.SLocalize "AutoStashTitle") (env.SLocalize "AutoStashPrompt"),
        ⟨{ w.gui with Undoing := false },
          w.trace ++ [⟨.createConfirmationPanel .branches true (env.SLocalize "AutoStashTitle")
            (env.SLocalize "AutoStashPrompt") (.autoStash commitSha) none, true⟩]⟩) := by
  simp [handleHardResetWithAutoStash, h, createConfirmationPanel, World.emit, World.setUndoing]

/-- On a clean tree the first call is the hard reset, made with `Undoing` set. -/
theorem handleHardResetWithAutoStash_clean (env : Env) (commitSha : String) (w : World)
    (h : w.gui.Files.any (fun file => file.Tracked) = false) :
    ∃ rest, (handleHardResetWithAutoStash env commitSha w).2.trace =
      w.trace ++ ⟨.resetToRef commitSha "hard", true⟩ :: rest := by
  unfold handleHardResetWithAutoStash
  simp only [h, Bool.false_eq_true, if_false]
  cases hr : (resetToRef env commitSha "hard" (w.setUndoing true)).1 with
  | none =>
    refine ⟨[⟨.refreshSidePanels, (env.resetToRef commitSha "hard"
      { w.gui with Undoing := true }).2.Undoing⟩], ?_⟩
    simp only [resetToRef, World.emit, World.setUndoing] at hr
    simp [resetToRef, refreshSidePanels, World.emit, World.setUndoing, hr]
  | some err =>
    refine ⟨[⟨.createErrorPanel err, (env.resetToRef commitSha "hard"
      { w.gui with Undoing := true }).2.Undoing⟩], ?_⟩
    simp only [resetToRef, World.emit, World.setUndoing] at hr
    simp [resetToRef, createErrorPanel, World.emit, World.setUndoing, hr]

theorem handleHardResetWithAutoStash_undoing (env : Env) (commitSha : String) (w : World) :
    (handleHardResetWithAutoStash env commitSha w).2.gui.Undoing = false := by
  simp [handleHardResetWithAutoStash, World.setUndoing]

/-- C9: when a file of the status list is tracked,
`handleHardResetWithAutoStash` makes exactly one call, the confirmation
prompt, with no handler for closing; it saves no stash, resets nothing and
pops nothing.  The handler it registers is the one that, when run, is the
stash, reset and pop sequence. -/
theorem handleHardResetWithAutoStash_dirty_only_prompts (env : Env) (target : String)
    (w : World) (h : ∃ file ∈ w.gui.Files, file.Tracked = true) :
    (handleHardResetWithAutoStash env target w).2.trace =
      w.trace ++ [⟨.createConfirmationPanel .branches true (env.SLocalize "AutoStashTitle")
        (env.SLocalize "AutoStashPrompt") (.autoStash target) none, true⟩] ∧
    (handleHardResetWithAutoStash env target w).2.gui = { w.gui with Undoing := false } ∧
    (handleHardResetWithAutoStash env target w).1 =
      env.createConfirmationPanel (env.SLocalize "AutoStashTitle")
        (env.SLocalize "AutoStashPrompt") ∧
    Closure.run env (.autoStash target) = autoStashOnConfirm env target := by
  have hany : w.gui.Files.any (fun file => file.Tracked) = true := by
    rw [List.any_eq_true]
    exact h
  rw [handleHardResetWithAutoStash_dirty env target w hany]
  exact ⟨rfl, rfl, rfl, rfl⟩

/-- C9, with one tracked file in the status list. -/
theorem handleHardResetWithAutoStash_dirty_only_prompts_witness :
    (handleHardResetWithAutoStash (quietEnv []) "s1"
        ⟨mkGui [] 0 false [⟨"a.txt", true⟩], []⟩).2.trace =
      [⟨.createConfirmationPanel .branches true "AutoStashTitle" "AutoStashPrompt"
        (.autoStash "s1") none, true⟩] :=
  (handleHardResetWithAutoStash_dirty_only_prompts (quietEnv []) "s1"
    ⟨mkGui [] 0 false [⟨"a.txt", true⟩], []⟩ ⟨⟨"a.txt", true⟩, by simp [mkGui], rfl⟩).1


/-- C6: the handler run on confirmation tries, in this order, the stash
save tagged with the target, the hard reset to the target, and the pop of
stash 0.  A failing save is reported and nothing else is tried; a failing
reset is reported and the pop is not tried; when all three succeed the side
panels are refreshed, no error panel is shown, and the result is that of the
refresh. -/
theorem autoStashOnConfirm_order (env : Env) (target : String) (w : World) :
    (∀ e, env.StashSave (env.SLocalize "StashPrefix" ++ target) = some e →
      calls (Closure.run env (.autoStash target) w).2.trace =
        calls w.trace ++
          [.StashSave (env.SLocalize "StashPrefix" ++ target), .createErrorPanel e]) ∧
    (∀ e, env.StashSave (env.SLocalize "StashPrefix" ++ target) = none →
      (env.resetToRef target "hard" w.gui).1 = some e →
      calls (Closure.run env (.autoStash target) w).2.trace =
        calls w.trace ++
          [.StashSave (env.SLocalize "StashPrefix" ++ target), .resetToRef target "hard",
            .createErrorPanel e]) ∧
    (env.StashSave (env.SLocalize "StashPrefix" ++ target) = none →
      (env.resetToRef target "hard" w.gui).1 = none →
      env.StashDo 0 "pop" = none →
      calls (Closure.run env (.autoStash target) w).2.trace =
        calls w.trace ++
          [.StashSave (env.SLocalize "StashPrefix" ++ target), .resetToRef target "hard",
            .StashDo 0 "pop", .refreshSidePanels] ∧
      (Closure.run env (.autoStash target) w).1 =
        (env.refreshSidePanels (env.resetToRef target "hard" w.gui).2).1) := by
  refine ⟨?_, ?_, ?_⟩
  · intro e hs
    simp [Closure.run, autoStashOnConfirm, StashSave, createErrorPanel, World.emit, calls, hs]
  · intro e hs hr
    simp [Closure.run, autoStashOnConfirm, StashSave, resetToRef, createErrorPanel, World.emit,
      calls, hs, hr]
  · intro hs hr hp
    simp [Closure.run, autoStashOnConfirm, StashSave, resetToRef, StashDo, refreshSidePanels,
      World.emit, calls, hs, hr, hp]

/-- C6, on three sets of collaborators: the save fails; the reset fails;
everything succeeds. -/
theorem autoStashOnConfirm_order_witness :
    calls (Closure.run stashSaveFailsEnv (.autoStash "s1") ⟨mkGui [] 0 false [], []⟩).2.trace =
      [.StashSave "StashPrefixs1", .createErrorPanel "cannot save"] ∧
    calls (Closure.run resetFailsEnv (.autoStash "s1") ⟨mkGui [] 0 false [], []⟩).2.trace =
      [.StashSave "StashPrefixs1", .resetToRef "s1" "hard", .createErrorPanel "cannot reset"] ∧
    calls (Closure.run (quietEnv []) (.autoStash "s1") ⟨mkGui [] 0 false [], []⟩).2.trace =
      [.StashSave "StashPrefixs1", .resetToRef "s1" "hard", .StashDo 0 "pop",
        .refreshSidePanels] :=
  ⟨(autoStashOnConfirm_order stashSaveFailsEnv "s1" ⟨mkGui [] 0 false [], []⟩).1
      "cannot save" rfl,
    (autoStashOnConfirm_order resetFailsEnv "s1" ⟨mkGui [] 0 false [], []⟩).2.1
      "cannot reset" rfl rfl,
    ((autoStashOnConfirm_order (quietEnv []) "s1" ⟨mkGui [] 0 false [], []⟩).2.2
      rfl rfl rfl).1⟩

/-- C7: when the save and the reset succeed, the pop fails with `e` and the
refresh of the side panels succeeds, the calls of the handler are the save,
one reset, the pop, then the refresh of the side panels and after it the
error panel with the message of the pop failure; there is one reset among
them and nothing follows the error panel. -/
theorem autoStashOnConfirm_pop_failure (env : Env) (target : String) (w : World) (e : String)
    (hs : env.StashSave (env.SLocalize "StashPrefix" ++ target) = none)
    (hr : (env.resetToRef target "hard" w.gui).1 = none)
    (hp : env.StashDo 0 "pop" = some e)
    (hf : (env.refreshSidePanels (env.resetToRef target "hard" w.gui).2).1 = none) :
    calls (Closure.run env (.autoStash target) w).2.trace =
      calls w.trace ++
        [.StashSave (env.SLocalize "StashPrefix" ++ target), .resetToRef target "hard",
          .StashDo 0 "pop", .refreshSidePanels, .createErrorPanel e] ∧
    (((Closure.run env (.autoStash target) w).2.trace.drop w.trace.length).map Event.call).countP
      Call.isResetToRef = 1 ∧
    (Closure.run env (.autoStash target) w).1 = env.createErrorPanel e := by
  refine ⟨?_, ?_, ?_⟩
  · simp [Closure.run, autoStashOnConfirm, StashSave, resetToRef, StashDo, refreshSidePanels,
      createErrorPanel, World.emit, calls, hs, hr, hp, hf]
  · simp [Closure.run, autoStashOnConfirm, StashSave, resetToRef, StashDo, refreshSidePanels,
      createErrorPanel, World.emit, hs, hr, hp, hf, Call.isResetToRef]
  · simp [Closure.run, autoStashOnConfirm, StashSave, resetToRef, StashDo, refreshSidePanels,
      createErrorPanel, World.emit, hs, hr, hp, hf]

/-- C7, with a pop that fails with "conflict". -/
theorem autoStashOnConfirm_pop_failure_witness :
    calls (Closure.run stashPopFailsEnv (.autoStash "s1") ⟨mkGui [] 0 false [], []⟩).2.trace =
      [.StashSave "StashPrefixs1", .resetToRef "s1" "hard", .StashDo 0 "pop",
        .refreshSidePanels, .createErrorPanel "conflict"] :=
  (autoStashOnConfirm_pop_failure stashPopFailsEnv "s1" ⟨mkGui [] 0 false [], []⟩ "conflict"
    rfl rfl rfl rfl).1


/-! ## The flag `Undoing` on exit -/

theorem checkoutAction_undoing (env : Env) (mtch : List String) (sha prev : String) (w : World)
    (h : w.gui.Undoing = false ∨ 1 < mtch.length) :
    (checkoutAction env mtch sha prev w).2.gui.Undoing = false := by
  unfold checkoutAction
  split_ifs with hlen
  · rcases h with h | h
    · exact h
    · omega
  · simp [World.setUndoing]

theorem resetAction_undoing (env : Env) (mtch : List String) (sha prev : String) (w : World) :
    (resetAction env mtch sha prev w).2.gui.Undoing = false := by
  simp [resetAction, handleHardResetWithAutoStash_undoing]

theorem reflogActions_keep_undoing_false (env : Env) (a : reflogAction) (ha : a ∈ reflogActions)
    (mtch : List String) (sha prev : String) (w : World) (h : w.gui.Undoing = false) :
    (a.action env mtch sha prev w).2.gui.Undoing = false := by
  simp only [reflogActions, List.mem_cons, List.mem_singleton, List.not_mem_nil, or_false] at ha
  rcases ha with rfl | rfl
  · exact checkoutAction_undoing env mtch sha prev w (Or.inl h)
  · exact resetAction_undoing env mtch sha prev w

theorem tryActions_undoing (env : Env) (i : Nat) (c : Commit) :
    ∀ (acts : List reflogAction) (w : World), (∀ a ∈ acts, a ∈ reflogActions) →
      w.gui.Undoing = false → (tryActions env i c acts w).2.gui.Undoing = false := by
  intro acts
  induction acts with
  | nil => intro w _ h; exact h
  | cons a rest ih =>
    intro w hsub h
    have hrest : ∀ b ∈ rest, b ∈ reflogActions := fun b hb => hsub b (List.mem_cons_of_mem a hb)
    have hact := reflogActions_keep_undoing_false env a (hsub a (List.mem_cons_self a rest))
      (a.regexStr.FindStringSubmatch c.Name) c.Sha (prevCommitShaAt w.gui.ReflogCommits i) w h
    unfold tryActions
    simp only
    split_ifs with hlen hdone
    · exact ih w hrest h
    · split <;> exact hact
    · split
      · exact hact
      · exact ih _ hrest hact

theorem scanReflog_undoing (env : Env) :
    ∀ (slice : List Commit) (i : Nat) (w : World),
      w.gui.Undoing = false → (scanReflog env slice i w).2.gui.Undoing = false := by
  intro slice
  induction slice with
  | nil => intro i w h; exact h
  | cons c rest ih =>
    intro i w h
    have ht := tryActions_undoing env i c reflogActions w (fun a ha => ha) h
    unfold scanReflog
    split
    · rename_i ret w1 heq
      rw [heq] at ht
      exact ht
    · rename_i w1 heq
      rw [heq] at ht
      exact ih (i + 1) w1 ht

/-- C8: whatever the collaborators do and return, `Undoing` is false when
`handleHardResetWithAutoStash` returns, and when the action of the
checkout rule returns after being run on a match of its expression; and a
call of `reflogUndo` that starts with `Undoing` false ends with `Undoing`
false, whether it returns nil, returns an error or panics. -/
theorem undoing_false_on_exit (env : Env) :
    (∀ (target : String) (w : World),
      (handleHardResetWithAutoStash env target w).2.gui.Undoing = false) ∧
    (∀ (name sha prev : String) (w : World),
      Regexp.FindStringSubmatch .checkoutMovingFrom name ≠ [] →
      (checkoutAction env (Regexp.FindStringSubmatch .checkoutMovingFrom name) sha prev
        w).2.gui.Undoing = false) ∧
    (∀ w : World, w.gui.Undoing = false → (reflogUndo env w).2.gui.Undoing = false) := by
  refine ⟨handleHardResetWithAutoStash_undoing env, ?_, ?_⟩
  · intro name sha prev w hne
    apply checkoutAction_undoing
    right
    rcases checkout_match_length name with h0 | h2
    · exact absurd (List.length_eq_zero.mp h0) hne
    · omega
  · intro w h
    unfold reflogUndo
    simp only
    split_ifs
    · exact h
    · exact scanReflog_undoing env _ 0 w h

/-- C8, on a checkout that fails, run from a state where `Undoing` was left
true, and on an undo of a commit over a dirty tree. -/
theorem undoing_false_on_exit_witness :
    (checkoutAction ({ quietEnv [] with handleCheckoutRef := fun _ g => (some "no such ref", g) })
        (Regexp.FindStringSubmatch .checkoutMovingFrom "checkout: moving from A to B") "s0" "s1"
        ⟨mkGui [] 0 true [], []⟩).2.gui.Undoing = false ∧
    (reflogUndo (quietEnv [])
        ⟨mkGui [⟨"s0", "commit: x"⟩, ⟨"s1", "commit: y"⟩] 0 false [⟨"a.txt", true⟩],
          []⟩).2.gui.Undoing = false :=
  ⟨(undoing_false_on_exit
      ({ quietEnv [] with handleCheckoutRef := fun _ g => (some "no such ref", g) })).2.1
      "checkout: moving from A to B" "s0" "s1" ⟨mkGui [] 0 true [], []⟩ (by decide),
    (undoing_false_on_exit (quietEnv [])).2.2
      ⟨mkGui [⟨"s0", "commit: x"⟩, ⟨"s1", "commit: y"⟩] 0 false [⟨"a.txt", true⟩], []⟩ rfl⟩

/-! ## The oldest entry -/

theorem firstMatchingRule_commit (name : String)
    (h : Regexp.FindStringSubmatch .commitOrRebaseStart name ≠ []) :
    firstMatchingRule name reflogActions =
      some (⟨.commitOrRebaseStart, resetAction⟩,
        Regexp.FindStringSubmatch .commitOrRebaseStart name) := by
  have h1 := checkout_nomatch_of_commit_match name h
  have h2 : (Regexp.FindStringSubmatch .commitOrRebaseStart name).length ≠ 0 := by
    intro h0
    exact h (List.length_eq_zero.mp h0)
  simp only [reflogActions, firstMatchingRule, h1, List.length_nil, if_true, h2, if_false]

/-- The target of the reset for every cursor: when the scan, started at the
cursor, first matches at position `pre.length` of the slice (ledger index
`cursor + pre.length`) and the match is by the commit and rebase-start rule,
the reset goes to the id at ledger index `pre.length + 1`, which is the
following entry only when the cursor is 0. -/
theorem reflogUndo_commit_target (env : Env) (w : World) (pre post : List Commit) (e : Commit)
    (hc0 : 0 ≤ w.gui.UndoReflogIdx)
    (hdrop : w.gui.ReflogCommits.drop w.gui.UndoReflogIdx.toNat = pre ++ e :: post)
    (hpre : ∀ x ∈ pre, noRuleMatches x.Name)
    (hmatch : Regexp.FindStringSubmatch .commitOrRebaseStart e.Name ≠ [])
    (hnext : pre.length + 1 < w.gui.ReflogCommits.length) :
    reflogUndo env w =
      (.returned (handleHardResetWithAutoStash env
          (w.gui.ReflogCommits.get ⟨pre.length + 1, hnext⟩).Sha w).1,
        (handleHardResetWithAutoStash env
          (w.gui.ReflogCommits.get ⟨pre.length + 1, hnext⟩).Sha w).2) := by
  rw [reflogUndo_eq_first_action env w pre post e ⟨.commitOrRebaseStart, resetAction⟩
    (Regexp.FindStringSubmatch .commitOrRebaseStart e.Name) hc0 hdrop hpre
    (firstMatchingRule_commit e.Name hmatch),
    prevCommitShaAt_eq w.gui.ReflogCommits pre.length hnext]
  rfl

/-- C4, as the code has it: with cursor 0, when the first entry that a rule
matches is the oldest entry of the ledger and it matches the commit and
rebase-start rule, `reflogUndo` does not fail by itself: it runs
`handleHardResetWithAutoStash` on the empty target and returns what that
returns.  With a tracked file in the status list the prompt for the empty
target is shown; with none, a hard reset to the empty target is issued. -/
theorem reflogUndo_oldest_commit_empty_target (env : Env) (w : World)
    (pre : List Commit) (last : Commit)
    (hcursor : w.gui.UndoReflogIdx = 0)
    (hentries : w.gui.ReflogCommits = pre ++ [last])
    (hpre : ∀ x ∈ pre, noRuleMatches x.Name)
    (hlast : Regexp.FindStringSubmatch .commitOrRebaseStart last.Name ≠ []) :
    reflogUndo env w =
      (.returned (handleHardResetWithAutoStash env "" w).1,
        (handleHardResetWithAutoStash env "" w).2) ∧
    ((∃ file ∈ w.gui.Files, file.Tracked = true) →
      (reflogUndo env w).2.trace =
        w.trace ++ [⟨.createConfirmationPanel .branches true (env.SLocalize "AutoStashTitle")
          (env.SLocalize "AutoStashPrompt") (.autoStash "") none, true⟩]) ∧
    ((∀ file ∈ w.gui.Files, file.Tracked = false) →
      ∃ rest, (reflogUndo env w).2.trace = w.trace ++ ⟨.resetToRef "" "hard", true⟩ :: rest) := by
  have hprev : prevCommitShaAt w.gui.ReflogCommits pre.length = "" := by
    apply prevCommitShaAt_last
    rw [hentries]
    simp
  have heq : reflogUndo env w =
      (.returned (handleHardResetWithAutoStash env "" w).1,
        (handleHardResetWithAutoStash env "" w).2) := by
    rw [reflogUndo_eq_first_action env w pre [] last ⟨.commitOrRebaseStart, resetAction⟩
      (Regexp.FindStringSubmatch .commitOrRebaseStart last.Name) (by omega)
      (by rw [hcursor, hentries]; rfl) hpre (firstMatchingRule_commit last.Name hlast), hprev]
    rfl
  refine ⟨heq, ?_, ?_⟩
  · intro hdirty
    have hany : w.gui.Files.any (fun file => file.Tracked) = true := by
      rw [List.any_eq_true]
      exact hdirty
    rw [heq, handleHardResetWithAutoStash_dirty env "" w hany]
  · intro hclean
    have hany : w.gui.Files.any (fun file => file.Tracked) = false := by
      rw [List.any_eq_false]
      intro file hf
      simp [hclean file hf]
    rw [heq]
    exact handleHardResetWithAutoStash_clean env "" w hany

/-- C4 as amended, on the ledger "pull: y", "commit (initial): x" with
cursor 0 and a clean tree: the reset goes to the empty target. -/
theorem reflogUndo_oldest_commit_empty_target_witness :
    reflogUndo (quietEnv [])
        ⟨mkGui [⟨"s1", "pull: y"⟩, ⟨"s0", "commit (initial): x"⟩] 0 false [], []⟩ =
      (.returned none,
        ⟨mkGui [⟨"s1", "pull: y"⟩, ⟨"s0", "commit (initial): x"⟩] 0 false [],
          [⟨.resetToRef "" "hard", true⟩, ⟨.refreshSidePanels, true⟩]⟩) := by
  rw [(reflogUndo_oldest_commit_empty_target (quietEnv [])
    ⟨mkGui [⟨"s1", "pull: y"⟩, ⟨"s0", "commit (initial): x"⟩] 0 false [], []⟩
    [⟨"s1", "pull: y"⟩] ⟨"s0", "commit (initial): x"⟩ rfl rfl
    (by
      intro x hx
      rw [List.mem_singleton] at hx
      subst hx
      intro a ha
      simp only [reflogActions, List.mem_cons, List.mem_singleton, List.not_mem_nil,
        or_false] at ha
      rcases ha with rfl | rfl <;> decide)
    (by decide)).1]
  decide


/-! ## More on the two expressions -/

theorem checkoutLiteral_prefix (t : List Char) :
    ("checkout: moving from ".toList).isPrefixOf (checkoutLiteral ++ t) = true := by
  rw [List.isPrefixOf_iff_prefix]
  exact List.prefix_append _ _

theorem checkoutLiteral_drop (t : List Char) :
    (checkoutLiteral ++ t).drop ("checkout: moving from ".toList).length = t := by
  exact List.drop_left _ _

theorem takeWhile_reference (r rest : List Char)
    (hr : ∀ c ∈ r, isSpace c = false)
    (hrest : ∀ c ∈ rest.head?, isSpace c = true) :
    (r ++ rest).takeWhile (fun c => !isSpace c) = r := by
  induction r with
  | nil =>
    cases rest with
    | nil => rfl
    | cons c cs =>
      have hc : isSpace c = true := hrest c (by simp)
      simp [List.takeWhile, hc]
  | cons a as ih =>
    have ha : isSpace a = false := hr a (List.mem_cons_self a as)
    have has : ∀ c ∈ as, isSpace c = false := fun c hc => hr c (List.mem_cons_of_mem a hc)
    simp [List.takeWhile, ha, ih has]

/-- What the checkout expression returns on a message that carries a reference. -/
theorem checkout_match_of_reference (s : String) (r rest : List Char)
    (hs : s.toList = checkoutLiteral ++ (r ++ rest))
    (hne : r ≠ [])
    (hr : ∀ c ∈ r, isSpace c = false)
    (hrest : ∀ c ∈ rest.head?, isSpace c = true) :
    Regexp.FindStringSubmatch .checkoutMovingFrom s =
      [String.mk (checkoutLiteral ++ r), String.mk r] := by
  unfold Regexp.FindStringSubmatch
  simp only
  rw [hs, checkoutLiteral_prefix, if_pos rfl, checkoutLiteral_drop,
    takeWhile_reference r rest hr hrest]
  have : r.isEmpty = false := by
    cases r with
    | nil => exact absurd rfl hne
    | cons a as => rfl
  rw [this]
  rfl

/-- The checkout expression has no match on a message without a reference. -/
theorem checkout_nomatch_of_no_reference (s : String) (rest : List Char)
    (hs : s.toList = checkoutLiteral ++ rest)
    (hrest : ∀ c ∈ rest.head?, isSpace c = true) :
    Regexp.FindStringSubmatch .checkoutMovingFrom s = [] := by
  unfold Regexp.FindStringSubmatch
  simp only
  rw [hs, checkoutLiteral_prefix, if_pos rfl, checkoutLiteral_drop]
  have h := takeWhile_reference [] rest (by simp) hrest
  rw [List.nil_append] at h
  rw [h]
  rfl

/-- The commit expression has no match on a message that begins with the
literal of the checkout expression. -/
theorem commit_nomatch_of_checkoutLiteral (s : String) (rest : List Char)
    (hs : s.toList = checkoutLiteral ++ rest) :
    Regexp.FindStringSubmatch .commitOrRebaseStart s = [] := by
  unfold Regexp.FindStringSubmatch
  simp only
  rw [hs]
  rfl


/-! ## The scan when nothing matches, or matches weakly -/

theorem reflogUndo_no_match (env : Env) (w : World)
    (hc0 : 0 ≤ w.gui.UndoReflogIdx)
    (hcN : w.gui.UndoReflogIdx ≤ (w.gui.ReflogCommits.length : Int))
    (hnone : ∀ x ∈ w.gui.ReflogCommits.drop w.gui.UndoReflogIdx.toNat, noRuleMatches x.Name) :
    reflogUndo env w = (.returned none, w) := by
  have hle : ¬ (w.gui.UndoReflogIdx < 0 ∨
      w.gui.UndoReflogIdx > (w.gui.ReflogCommits.length : Int)) := by omega
  have hskip := scanReflog_skip env [] (w.gui.ReflogCommits.drop w.gui.UndoReflogIdx.toNat) 0 w
    hnone
  rw [List.append_nil] at hskip
  unfold reflogUndo
  simp only [hle, if_false, hskip, scanReflog]

/-- C11: with the cursor within the ledger and no entry from the cursor on
matched by either rule, `reflogUndo` returns nil, makes no call at all to a
collaborator (the trace is unchanged) and leaves the state, so the entries,
the cursor and `Undoing`, as they were. -/
theorem reflogUndo_noop (env : Env) (w : World)
    (hc0 : 0 ≤ w.gui.UndoReflogIdx)
    (hcN : w.gui.UndoReflogIdx ≤ (w.gui.ReflogCommits.length : Int))
    (hnone : ∀ x ∈ w.gui.ReflogCommits.drop w.gui.UndoReflogIdx.toNat, noRuleMatches x.Name) :
    reflogUndo env w = (.returned none, w) :=
  reflogUndo_no_match env w hc0 hcN hnone

/-- C11, on the empty ledger and on a ledger whose cursor is at its end. -/
theorem reflogUndo_noop_witness :
    reflogUndo (quietEnv []) ⟨mkGui [] 0 false [], []⟩ =
      (.returned none, ⟨mkGui [] 0 false [], []⟩) ∧
    reflogUndo (quietEnv []) ⟨mkGui [⟨"s1", "commit: b"⟩, ⟨"s0", "commit: a"⟩] 2 false [], []⟩ =
      (.returned none, ⟨mkGui [⟨"s1", "commit: b"⟩, ⟨"s0", "commit: a"⟩] 2 false [], []⟩) :=
  ⟨reflogUndo_noop (quietEnv []) ⟨mkGui [] 0 false [], []⟩ (by decide) (by decide)
      (by intro x hx; simp [mkGui] at hx),
    reflogUndo_noop (quietEnv [])
      ⟨mkGui [⟨"s1", "commit: b"⟩, ⟨"s0", "commit: a"⟩] 2 false [], []⟩ (by decide) (by decide)
      (by intro x hx; simp [mkGui] at hx)⟩

/-- C12, the code on the ledger "checkout: moving from " (e0), "commit: x"
(e1), "pull: y" (e2): with cursor 0 the entry e0 is skipped, the commit e1
is met at loop index 1 and the reset goes to e2; with the scan started at
the next older entry, cursor 1, the same commit is met at loop index 0 and
the reset goes to e1.  The two runs do not behave alike. -/
theorem reflogUndo_skip_differs_from_later_start :
    (reflogUndo (quietEnv [])
        ⟨mkGui [⟨"e0", "checkout: moving from "⟩, ⟨"e1", "commit: x"⟩, ⟨"e2", "pull: y"⟩]
          0 false [], []⟩).2.trace =
      [⟨.resetToRef "e2" "hard", true⟩, ⟨.refreshSidePanels, true⟩] ∧
    (reflogUndo (quietEnv [])
        ⟨mkGui [⟨"e0", "checkout: moving from "⟩, ⟨"e1", "commit: x"⟩, ⟨"e2", "pull: y"⟩]
          1 false [], []⟩).2.trace =
      [⟨.resetToRef "e1" "hard", true⟩, ⟨.refreshSidePanels, true⟩] := by
  decide

theorem noRuleMatches_of_no_reference (s : String) (rest : List Char)
    (hs : s.toList = checkoutLiteral ++ rest)
    (hrest : ∀ c ∈ rest.head?, isSpace c = true) :
    noRuleMatches s := by
  intro a ha
  simp only [reflogActions, List.mem_cons, List.mem_singleton, List.not_mem_nil, or_false] at ha
  rcases ha with rfl | rfl
  · exact checkout_nomatch_of_no_reference s rest hs hrest
  · exact commit_nomatch_of_checkoutLiteral s rest hs

/-- An entry from the cursor on whose message is "checkout: moving from "
followed by nothing or by a space character is matched by no rule and
triggers no action (the inner loop over the rules leaves the world as it
was), and `reflogUndo` gives what the outer loop gives when it goes on with
the entries `post` at the next value of its index, `pre.length + 1`: the
index still counts the skipped entry. -/
theorem reflogUndo_skips_checkout_without_reference (env : Env) (w : World)
    (pre post : List Commit) (e : Commit) (rest : List Char)
    (hc0 : 0 ≤ w.gui.UndoReflogIdx)
    (hdrop : w.gui.ReflogCommits.drop w.gui.UndoReflogIdx.toNat = pre ++ e :: post)
    (hpre : ∀ x ∈ pre, noRuleMatches x.Name)
    (hname : e.Name.toList = checkoutLiteral ++ rest)
    (hrest : ∀ c ∈ rest.head?, isSpace c = true) :
    tryActions env pre.length e reflogActions w = (none, w) ∧
    reflogUndo env w =
      (.returned (scanReflog env post (pre.length + 1) w).1,
        (scanReflog env post (pre.length + 1) w).2) := by
  have hweak := noRuleMatches_of_no_reference e.Name rest hname hrest
  have htry := tryActions_noMatch env pre.length e hweak reflogActions w (fun a ha => ha)
  refine ⟨htry, ?_⟩
  have hle : ¬ (w.gui.UndoReflogIdx < 0 ∨
      w.gui.UndoReflogIdx > (w.gui.ReflogCommits.length : Int)) := by
    intro hbad
    rcases hbad with hneg | hgt
    · omega
    · have hnil : w.gui.ReflogCommits.drop w.gui.UndoReflogIdx.toNat = [] := by
        apply List.drop_of_length_le
        omega
      rw [hnil] at hdrop
      simp at hdrop
  unfold reflogUndo
  simp only [hle, if_false, hdrop]
  rw [scanReflog_skip env (e :: post) pre 0 w hpre]
  simp only [scanReflog, Nat.zero_add, htry]

/-- The skip on the entries "checkout: moving from ", "checkout: moving from A"
with cursor 0: the first entry is skipped and the checkout of "A" is the only
call. -/
theorem reflogUndo_skips_checkout_without_reference_witness :
    reflogUndo (quietEnv [])
        ⟨mkGui [⟨"e0", "checkout: moving from "⟩, ⟨"e1", "checkout: moving from A"⟩] 0 false [],
          []⟩ =
      (.returned none,
        ⟨mkGui [⟨"e0", "checkout: moving from "⟩, ⟨"e1", "checkout: moving from A"⟩] 0 false [],
          [⟨.handleCheckoutRef "A", true⟩]⟩) := by
  rw [(reflogUndo_skips_checkout_without_reference (quietEnv [])
    ⟨mkGui [⟨"e0", "checkout: moving from "⟩, ⟨"e1", "checkout: moving from A"⟩] 0 false [], []⟩
    [] [⟨"e1", "checkout: moving from A"⟩] ⟨"e0", "checkout: moving from "⟩ []
    (by decide) rfl (by simp) rfl (by simp)).2]
  decide


/-! ## The clean tree, the rules one by one, the failing fetch, the selection -/

/-- C13: when no file of the status list is tracked,
`handleHardResetWithAutoStash` calls `resetToRef(target, "hard")` first and
with `Undoing` true; when that fails with `e` the only other call is the
error panel with `e`; when it succeeds the only other call is the refresh of
the side panels.  No prompt is shown, nothing is stashed or popped, and one
reset is issued. -/
theorem handleHardResetWithAutoStash_clean_resets_once (env : Env) (target : String)
    (w : World) (h : ∀ file ∈ w.gui.Files, file.Tracked = false) :
    (∃ ev, (handleHardResetWithAutoStash env target w).2.trace =
      w.trace ++ [⟨.resetToRef target "hard", true⟩, ev]) ∧
    (∀ e, (env.resetToRef target "hard" { w.gui with Undoing := true }).1 = some e →
      calls (handleHardResetWithAutoStash env target w).2.trace =
        calls w.trace ++ [.resetToRef target "hard", .createErrorPanel e] ∧
      (handleHardResetWithAutoStash env target w).1 = env.createErrorPanel e) ∧
    ((env.resetToRef target "hard" { w.gui with Undoing := true }).1 = none →
      calls (handleHardResetWithAutoStash env target w).2.trace =
        calls w.trace ++ [.resetToRef target "hard", .refreshSidePanels] ∧
      (handleHardResetWithAutoStash env target w).1 =
        (env.refreshSidePanels
          (env.resetToRef target "hard" { w.gui with Undoing := true }).2).1) := by
  have hany : w.gui.Files.any (fun file => file.Tracked) = false := by
    rw [List.any_eq_false]
    intro file hf
    simp [h file hf]
  refine ⟨?_, ?_, ?_⟩
  · cases hr : (env.resetToRef target "hard" { w.gui with Undoing := true }).1 with
    | none =>
      refine ⟨⟨.refreshSidePanels, (env.resetToRef target "hard"
        { w.gui with Undoing := true }).2.Undoing⟩, ?_⟩
      simp [handleHardResetWithAutoStash, hany, resetToRef, refreshSidePanels, World.emit,
        World.setUndoing, hr]
    | some e =>
      refine ⟨⟨.createErrorPanel e, (env.resetToRef target "hard"
        { w.gui with Undoing := true }).2.Undoing⟩, ?_⟩
      simp [handleHardResetWithAutoStash, hany, resetToRef, createErrorPanel, World.emit,
        World.setUndoing, hr]
  · intro e hr
    simp [handleHardResetWithAutoStash, hany, resetToRef, createErrorPanel, World.emit,
      World.setUndoing, calls, hr]
  · intro hr
    simp [handleHardResetWithAutoStash, hany, resetToRef, refreshSidePanels, World.emit,
      World.setUndoing, calls, hr]

/-- C13, with an empty status list, once with a reset that succeeds and once
with a reset that fails. -/
theorem handleHardResetWithAutoStash_clean_resets_once_witness :
    calls (handleHardResetWithAutoStash (quietEnv []) "s1" ⟨mkGui [] 0 false [], []⟩).2.trace =
      [.resetToRef "s1" "hard", .refreshSidePanels] ∧
    calls (handleHardResetWithAutoStash resetFailsEnv "s1" ⟨mkGui [] 0 false [], []⟩).2.trace =
      [.resetToRef "s1" "hard", .createErrorPanel "cannot reset"] :=
  ⟨((handleHardResetWithAutoStash_clean_resets_once (quietEnv []) "s1"
      ⟨mkGui [] 0 false [], []⟩ (by simp [mkGui])).2.2 rfl).1,
    ((handleHardResetWithAutoStash_clean_resets_once resetFailsEnv "s1"
      ⟨mkGui [] 0 false [], []⟩ (by simp [mkGui])).2.1 "cannot reset" rfl).1⟩

/-- C14 fails as stated: the message "rebase -i (start): checkout master"
is matched by the commit and rebase-start expression, although it neither
begins with "commit" nor is equal to "rebase -i (start)". -/
theorem commit_rule_matches_longer_rebase_start :
    Regexp.FindStringSubmatch .commitOrRebaseStart "rebase -i (start): checkout master" ≠ [] ∧
    beginsWith "commit" "rebase -i (start): checkout master" = false ∧
    "rebase -i (start): checkout master" ≠ "rebase -i (start)" := by
  decide

/-- C14, as the code has it: the commit and rebase-start expression matches
a message if and only if the message begins with "commit" or begins with
"rebase -i (start)"; and the action of the rule reports done (consumed) on
every call. -/
theorem commit_rule_matches_iff (s : String) :
    (Regexp.FindStringSubmatch .commitOrRebaseStart s ≠ [] ↔
      (beginsWith "commit" s = true ∨ beginsWith "rebase -i (start)" s = true)) ∧
    (∀ (env : Env) (mtch : List String) (sha prev : String) (w : World),
      (resetAction env mtch sha prev w).1.1 = true) := by
  refine ⟨?_, fun env mtch sha prev w => rfl⟩
  unfold Regexp.FindStringSubmatch beginsWith
  simp only
  split_ifs with h1 h2
  · exact ⟨fun _ => Or.inl h1, fun _ => List.cons_ne_nil _ _⟩
  · exact ⟨fun _ => Or.inr h2, fun _ => List.cons_ne_nil _ _⟩
  · refine ⟨fun h => absurd rfl h, fun h => ?_⟩
    rcases h with h | h
    · exact absurd h h1
    · exact absurd h h2

/-- C15: on a message "checkout: moving from " ++ r ++ rest, with r not empty
and free of space characters (the class `\s` of the expression) and rest
empty or starting with a space character, the action of the checkout rule,
run on the match of its expression, makes exactly one call, the checkout of
r, made while `Undoing` is true, and reports done (consumed). -/
theorem checkoutAction_requests_reference (env : Env) (s : String) (r rest : List Char)
    (sha prev : String) (w : World)
    (hs : s.toList = checkoutLiteral ++ (r ++ rest))
    (hne : r ≠ [])
    (hr : ∀ c ∈ r, isSpace c = false)
    (hrest : ∀ c ∈ rest.head?, isSpace c = true) :
    (checkoutAction env (Regexp.FindStringSubmatch .checkoutMovingFrom s) sha prev w).2.trace =
      w.trace ++ [⟨.handleCheckoutRef (String.mk r), true⟩] ∧
    (checkoutAction env (Regexp.FindStringSubmatch .checkoutMovingFrom s) sha prev w).1.1 = true ∧
    (checkoutAction env (Regexp.FindStringSubmatch .checkoutMovingFrom s) sha prev w).1.2 =
      (env.handleCheckoutRef (String.mk r) { w.gui with Undoing := true }).1 := by
  rw [checkout_match_of_reference s r rest hs hne hr hrest]
  simp [checkoutAction, handleCheckoutRef, World.emit, World.setUndoing]

/-- C15, on "checkout: moving from A to B": the checkout requested is "A". -/
theorem checkoutAction_requests_reference_witness :
    (checkoutAction (quietEnv [])
        (Regexp.FindStringSubmatch .checkoutMovingFrom "checkout: moving from A to B") "s0" "s1"
        ⟨mkGui [] 0 false [], []⟩).2.trace = [⟨.handleCheckoutRef "A", true⟩] :=
  (checkoutAction_requests_reference (quietEnv []) "checkout: moving from A to B"
    ['A'] " to B".toList "s0" "s1" ⟨mkGui [] 0 false [], []⟩ rfl (by decide) (by decide)
    (by decide)).1

/-- C16: when the fetch fails with `err`, `refreshReflogCommits` makes one
call, the error panel with `err`, returns its result, and leaves the whole
state as it was: entries, cursor, `Undoing` and the selected line; nothing
is drawn. -/
theorem refreshReflogCommits_fetch_error (env : Env) (w : World) (err : String)
    (hfetch : env.GetReflogCommits = .error err) :
    refreshReflogCommits env w =
      (.returned (env.createErrorPanel err),
        ⟨w.gui, w.trace ++ [⟨.createErrorPanel err, w.gui.Undoing⟩]⟩) := by
  unfold refreshReflogCommits
  simp only [hfetch]
  rfl

/-- C16, on a ledger of one entry with cursor 1 during an undo, shown in the
reflog context. -/
theorem refreshReflogCommits_fetch_error_witness :
    refreshReflogCommits ({ quietEnv [] with GetReflogCommits := .error "not a repository" })
        ⟨{ mkGui [⟨"s0", "commit: a"⟩] 1 true [] with commitsViewContext := "reflog-commits" },
          []⟩ =
      (.returned none,
        ⟨{ mkGui [⟨"s0", "commit: a"⟩] 1 true [] with commitsViewContext := "reflog-commits" },
          [⟨.createErrorPanel "not a repository", true⟩]⟩) :=
  refreshReflogCommits_fetch_error ({ quietEnv [] with GetReflogCommits := .error "not a repository" })
    ⟨{ mkGui [⟨"s0", "commit: a"⟩] 1 true [] with commitsViewContext := "reflog-commits" }, []⟩
    "not a repository" rfl

/-- C17: `getSelectedReflogCommit` returns nil when the selected line is
`-1` or the ledger is empty, and the entry at index i when the selected line
is i with `0 <= i < len(entries)`.  It reads the state and returns a value:
the embedding has no state to return. -/
theorem getSelectedReflogCommit_spec (w : World) :
    ((w.gui.SelectedLine = -1 ∨ w.gui.ReflogCommits = []) →
      getSelectedReflogCommit w = .returned none) ∧
    (∀ (i : Nat) (h : i < w.gui.ReflogCommits.length), w.gui.SelectedLine = (i : Int) →
      getSelectedReflogCommit w = .returned (some (w.gui.ReflogCommits.get ⟨i, h⟩))) := by
  constructor
  · intro h
    unfold getSelectedReflogCommit
    simp only
    rw [if_pos]
    rcases h with h | h
    · exact Or.inl h
    · right
      rw [h]
      rfl
  · intro i h hsel
    unfold getSelectedReflogCommit
    simp only
    have h1 : ¬ (w.gui.SelectedLine = -1 ∨ w.gui.ReflogCommits.length = 0) := by omega
    have h2 : ¬ (w.gui.SelectedLine < 0) := by omega
    rw [if_neg h1, if_neg h2, hsel, Int.toNat_ofNat, List.getElem?_eq_getElem h]
    rfl

/-- C17, on a ledger of two entries with the second selected, and on the
empty ledger. -/
theorem getSelectedReflogCommit_spec_witness :
    getSelectedReflogCommit
        ⟨{ mkGui [⟨"s1", "commit: b"⟩, ⟨"s0", "commit: a"⟩] 0 false [] with SelectedLine := 1 },
          []⟩ = .returned (some ⟨"s0", "commit: a"⟩) ∧
    getSelectedReflogCommit ⟨mkGui [] 0 false [], []⟩ = .returned none :=
  ⟨(getSelectedReflogCommit_spec
      ⟨{ mkGui [⟨"s1", "commit: b"⟩, ⟨"s0", "commit: a"⟩] 0 false [] with SelectedLine := 1 },
        []⟩).2 1 (by decide) rfl,
    (getSelectedReflogCommit_spec ⟨mkGui [] 0 false [], []⟩).1 (Or.inr rfl)⟩


/-! ## The handler of the prompt runs outside the undo -/

theorem autoStashOnConfirm_undoing_false (env : Env) (target : String) (w : World)
    (hkeep : EnvKeepsUndoing env) (hw : w.gui.Undoing = false) :
    (∀ ev ∈ (autoStashOnConfirm env target w).2.trace.drop w.trace.length,
      ev.undoing = false) ∧
    (autoStashOnConfirm env target w).2.gui.Undoing = false := by
  obtain ⟨_, hreset, hrefresh⟩ := hkeep
  have h1 : (env.resetToRef target "hard" w.gui).2.Undoing = false := by
    rw [hreset, hw]
  have h2 : (env.refreshSidePanels (env.resetToRef target "hard" w.gui).2).2.Undoing = false := by
    rw [hrefresh, h1]
  unfold autoStashOnConfirm
  cases hs : env.StashSave (env.SLocalize "StashPrefix" ++ target) with
  | some e =>
    simp [StashSave, createErrorPanel, World.emit, hs, hw]
  | none =>
    cases hr : (env.resetToRef target "hard" w.gui).1 with
    | some e =>
      simp [StashSave, resetToRef, createErrorPanel, World.emit, hs, hr, hw, h1]
    | none =>
      cases hp : env.StashDo 0 "pop" with
      | none =>
        simp [StashSave, resetToRef, StashDo, refreshSidePanels, World.emit, hs, hr, hp, hw,
          h1, h2]
      | some e =>
        cases hf : (env.refreshSidePanels (env.resetToRef target "hard" w.gui).2).1 with
        | none =>
          simp [StashSave, resetToRef, StashDo, refreshSidePanels, createErrorPanel, World.emit,
            hs, hr, hp, hf, hw, h1, h2]
        | some e2 =>
          simp [StashSave, resetToRef, StashDo, refreshSidePanels, createErrorPanel, World.emit,
            hs, hr, hp, hf, hw, h1, h2]

/-- C18: with a tracked file in the status list,
`handleHardResetWithAutoStash` only registers the prompt and returns with
`Undoing` false.  The handler of the prompt does not write `Undoing`: run
from a state where it is false, with collaborators that do not write it
either, every call it makes (stash save, reset, pop, refresh of the side
panels, error panel) is made with `Undoing` false and it ends with `Undoing`
false.  A refresh of the reflog made with `Undoing` false that sees the
history grow sets the cursor to 0. -/
theorem autoStash_handler_runs_outside_undo (env : Env) (target : String) (w : World)
    (hdirty : ∃ file ∈ w.gui.Files, file.Tracked = true)
    (hkeep : EnvKeepsUndoing env) :
    (handleHardResetWithAutoStash env target w).2.gui.Undoing = false ∧
    (handleHardResetWithAutoStash env target w).2.trace =
      w.trace ++ [⟨.createConfirmationPanel .branches true (env.SLocalize "AutoStashTitle")
        (env.SLocalize "AutoStashPrompt") (.autoStash target) none, true⟩] ∧
    (∀ w2 : World, w2.gui.Undoing = false →
      (∀ ev ∈ (Closure.run env (.autoStash target) w2).2.trace.drop w2.trace.length,
        ev.undoing = false) ∧
      (Closure.run env (.autoStash target) w2).2.gui.Undoing = false) ∧
    (∀ (env2 : Env) (w3 : World) (commits : List Commit),
      w3.gui.Undoing = false →
      env2.GetReflogCommits = .ok commits →
      commits.length > w3.gui.ReflogCommits.length →
      (refreshReflogCommits env2 w3).2.gui.UndoReflogIdx = 0) := by
  have hany : w.gui.Files.any (fun file => file.Tracked) = true := by
    rw [List.any_eq_true]
    exact hdirty
  refine ⟨handleHardResetWithAutoStash_undoing env target w, ?_, ?_, ?_⟩
  · rw [handleHardResetWithAutoStash_dirty env target w hany]
  · intro w2 hw2
    exact autoStashOnConfirm_undoing_false env target w2 hkeep hw2
  · intro env2 w3 commits hw3 hfetch hgrow
    obtain ⟨_, _, h3⟩ := refreshReflogCommits_ok_ledger env2 w3 commits hfetch
    rw [h3, if_pos hgrow]
    simp [hw3]

theorem refreshingEnv_keeps_undoing (commits : List Commit) :
    EnvKeepsUndoing (refreshingEnv commits) := by
  refine ⟨fun _ _ => rfl, fun _ _ _ => rfl, ?_⟩
  intro g
  exact (refreshReflogCommits_ok_ledger (quietEnv commits) ⟨g, []⟩ commits rfl).2.1

/-- C18, on a ledger of two commits with cursor 1 and a tracked file, with a
side-panel refresh that fetches three entries: the handler ends with
`Undoing` false and all its calls are stamped false. -/
theorem autoStash_handler_runs_outside_undo_witness :
    (∀ ev ∈ (Closure.run
          (refreshingEnv [⟨"s0", "reset: moving to s0"⟩, ⟨"s1", "commit: b"⟩, ⟨"s0", "commit: a"⟩])
          (.autoStash "s0")
          ⟨mkGui [⟨"s1", "commit: b"⟩, ⟨"s0", "commit: a"⟩] 1 false [⟨"a.txt", true⟩],
            []⟩).2.trace.drop 0,
      ev.undoing = false) ∧
    (Closure.run
        (refreshingEnv [⟨"s0", "reset: moving to s0"⟩, ⟨"s1", "commit: b"⟩, ⟨"s0", "commit: a"⟩])
        (.autoStash "s0")
        ⟨mkGui [⟨"s1", "commit: b"⟩, ⟨"s0", "commit: a"⟩] 1 false [⟨"a.txt", true⟩],
          []⟩).2.gui.Undoing = false :=
  (autoStash_handler_runs_outside_undo
    (refreshingEnv [⟨"s0", "reset: moving to s0"⟩, ⟨"s1", "commit: b"⟩, ⟨"s0", "commit: a"⟩])
    "s0" ⟨mkGui [⟨"s1", "commit: b"⟩, ⟨"s0", "commit: a"⟩] 1 false [⟨"a.txt", true⟩], []⟩
    ⟨⟨"a.txt", true⟩, by simp [mkGui], rfl⟩
    (refreshingEnv_keeps_undoing _)).2.2.1
    ⟨mkGui [⟨"s1", "commit: b"⟩, ⟨"s0", "commit: a"⟩] 1 false [⟨"a.txt", true⟩], []⟩ rfl

/-- The run of C18 evaluated: the handler confirmed after the prompt makes
its four calls with `Undoing` false, and the refresh inside the last of them
sees three entries where there were two and puts the cursor back from 1 to 0. -/
theorem autoStash_handler_resets_cursor :
    (Closure.run
        (refreshingEnv [⟨"s0", "reset: moving to s0"⟩, ⟨"s1", "commit: b"⟩, ⟨"s0", "commit: a"⟩])
        (.autoStash "s0")
        (handleHardResetWithAutoStash
          (refreshingEnv [⟨"s0", "reset: moving to s0"⟩, ⟨"s1", "commit: b"⟩, ⟨"s0", "commit: a"⟩])
          "s0"
          ⟨mkGui [⟨"s1", "commit: b"⟩, ⟨"s0", "commit: a"⟩] 1 false [⟨"a.txt", true⟩],
            []⟩).2).2 =
      ⟨mkGui [⟨"s0", "reset: moving to s0"⟩, ⟨"s1", "commit: b"⟩, ⟨"s0", "commit: a"⟩] 0 false
          [⟨"a.txt", true⟩],
        [⟨.createConfirmationPanel .branches true "AutoStashTitle" "AutoStashPrompt"
            (.autoStash "s0") none, true⟩,
          ⟨.StashSave "StashPrefixs0", false⟩, ⟨.resetToRef "s0" "hard", false⟩,
          ⟨.StashDo 0 "pop", false⟩, ⟨.refreshSidePanels, false⟩]⟩ := by
  decide

/-! ## The reset menu -/

/-- The entry at the selected line, when the line is inside the ledger. -/
theorem getSelectedReflogCommit_selected (w : World) (i : Nat)
    (h : i < w.gui.ReflogCommits.length) (hsel : w.gui.SelectedLine = (i : Int)) :
    getSelectedReflogCommit w = .returned (some (w.gui.ReflogCommits.get ⟨i, h⟩)) := by
  unfold getSelectedReflogCommit
  simp only
  have h1 : ¬ (w.gui.SelectedLine = -1 ∨ w.gui.ReflogCommits.length = 0) := by omega
  have h2 : ¬ (w.gui.SelectedLine < 0) := by omega
  rw [if_neg h1, if_neg h2, hsel, Int.toNat_ofNat, List.getElem?_eq_getElem h]
  rfl

/-- C19, the code on the empty ledger: `getSelectedReflogCommit` returns
nil and line 111 dereferences it, so the call panics and opens no menu. -/
theorem handleCreateReflogResetMenu_panics_on_empty :
    handleCreateReflogResetMenu (quietEnv []) ⟨{ initialGui with SelectedLine := -1 }, []⟩ =
      (.panicked "nil pointer dereference", ⟨{ initialGui with SelectedLine := -1 }, []⟩) := by
  decide

/-- With an entry selected the reset menu is opened for the id of that entry. -/
theorem handleCreateReflogResetMenu_selected (env : Env) (w : World) (i : Nat)
    (h : i < w.gui.ReflogCommits.length) (hsel : w.gui.SelectedLine = (i : Int)) :
    handleCreateReflogResetMenu env w =
      (.returned (env.createResetMenu (w.gui.ReflogCommits.get ⟨i, h⟩).Sha),
        w.emit (.createResetMenu (w.gui.ReflogCommits.get ⟨i, h⟩).Sha)) := by
  unfold handleCreateReflogResetMenu
  rw [(getSelectedReflogCommit_selected w i h hsel)]
  rfl


/-! ## The order of the two rules -/

theorem commit_nomatch_of_checkout_match (s : String)
    (h : Regexp.FindStringSubmatch .checkoutMovingFrom s ≠ []) :
    Regexp.FindStringSubmatch .commitOrRebaseStart s = [] := by
  by_contra hc
  exact h (checkout_nomatch_of_commit_match s hc)

theorem checkout_match_reference (s : String)
    (h : Regexp.FindStringSubmatch .checkoutMovingFrom s ≠ []) :
    ∃ full ref, Regexp.FindStringSubmatch .checkoutMovingFrom s = [full, ref] ∧ ref ≠ "" := by
  unfold Regexp.FindStringSubmatch at h ⊢
  simp only at h ⊢
  split_ifs at h ⊢ with h1 h2
  · exact absurd rfl h
  · refine ⟨_, _, rfl, ?_⟩
    intro hempty
    have hdata := congrArg String.data hempty
    apply h2
    rw [List.isEmpty_iff]
    exact hdata
  · exact absurd rfl h

theorem tryActions_swap (env : Env) (i : Nat) (c : Commit) (w : World) :
    tryActions env i c [⟨.commitOrRebaseStart, resetAction⟩, ⟨.checkoutMovingFrom, checkoutAction⟩]
        w =
      tryActions env i c reflogActions w := by
  by_cases h1 : (Regexp.FindStringSubmatch .checkoutMovingFrom c.Name).length = 0
  · by_cases h2 : (Regexp.FindStringSubmatch .commitOrRebaseStart c.Name).length = 0
    · simp only [reflogActions, tryActions, h1, h2, if_true]
    · simp only [reflogActions, tryActions, h1, h2, if_true, if_false, resetAction]
  · have hne : Regexp.FindStringSubmatch .checkoutMovingFrom c.Name ≠ [] := by
      intro hnil
      exact h1 (by rw [hnil]; rfl)
    have h2 : (Regexp.FindStringSubmatch .commitOrRebaseStart c.Name).length = 0 := by
      rw [commit_nomatch_of_checkout_match c.Name hne]
      rfl
    have hlen : (Regexp.FindStringSubmatch .checkoutMovingFrom c.Name).length = 2 := by
      rcases checkout_match_length c.Name with h0 | h
      · exact absurd h0 h1
      · exact h
    have hdone := checkoutAction_done env (Regexp.FindStringSubmatch .checkoutMovingFrom c.Name)
      c.Sha (prevCommitShaAt w.gui.ReflogCommits i) w hlen
    simp only [reflogActions, tryActions, h1, h2, if_true, if_false, hdone]

theorem scanReflogWith_swap (env : Env) :
    ∀ (slice : List Commit) (i : Nat) (w : World),
      scanReflogWith env
          [⟨.commitOrRebaseStart, resetAction⟩, ⟨.checkoutMovingFrom, checkoutAction⟩] slice i w =
        scanReflog env slice i w := by
  intro slice
  induction slice with
  | nil => intro i w; rfl
  | cons c rest ih =>
    intro i w
    simp only [scanReflogWith, scanReflog, tryActions_swap env i c w]
    split
    · rfl
    · exact ih _ _

/-- With the rules in the order of the source, `reflogUndoWith` is `reflogUndo`. -/
theorem reflogUndoWith_reflogActions (env : Env) (w : World) :
    reflogUndoWith env reflogActions w = reflogUndo env w := by
  have hscan : ∀ (slice : List Commit) (i : Nat) (w : World),
      scanReflogWith env reflogActions slice i w = scanReflog env slice i w := by
    intro slice
    induction slice with
    | nil => intro i w; rfl
    | cons c rest ih =>
      intro i w
      simp only [scanReflogWith, scanReflog]
      split
      · rfl
      · exact ih _ _
  unfold reflogUndoWith reflogUndo
  simp only [hscan]

/-- C20: no message is matched by both expressions; every match of the
checkout expression carries a captured reference that is not empty; and
`reflogUndo` run with the two rules in the opposite order gives, on every
state, the result and the final state that `reflogUndo` gives. -/
theorem reflogUndo_rule_order_irrelevant :
    (∀ s : String, ¬ (Regexp.FindStringSubmatch .checkoutMovingFrom s ≠ [] ∧
      Regexp.FindStringSubmatch .commitOrRebaseStart s ≠ [])) ∧
    (∀ s : String, Regexp.FindStringSubmatch .checkoutMovingFrom s ≠ [] →
      ∃ full ref, Regexp.FindStringSubmatch .checkoutMovingFrom s = [full, ref] ∧ ref ≠ "") ∧
    (∀ (env : Env) (w : World),
      reflogUndoWith env reflogActions.reverse w = reflogUndo env w) := by
  refine ⟨?_, checkout_match_reference, ?_⟩
  · intro s h
    exact h.1 (checkout_nomatch_of_commit_match s h.2)
  · intro env w
    have hrev : reflogActions.reverse =
        [⟨.commitOrRebaseStart, resetAction⟩, ⟨.checkoutMovingFrom, checkoutAction⟩] := rfl
    unfold reflogUndoWith reflogUndo
    rw [hrev]
    simp only [scanReflogWith_swap]

/-- C20, on "checkout: moving from A to B": the match is the matched text
and the reference "A". -/
theorem reflogUndo_rule_order_irrelevant_witness :
    ∃ full ref, Regexp.FindStringSubmatch .checkoutMovingFrom "checkout: moving from A to B" =
      [full, ref] ∧ ref ≠ "" :=
  reflogUndo_rule_order_irrelevant.2.1 "checkout: moving from A to B" (by decide)


end Gui
